import Mathlib

/-!
Verification development for the email threading core of the
`Email_module` backend.  The Python sources embedded here are
`backend/services/threading_engine.py` (subject normalisation, the seven
threading matchers, the resolver `thread_email`) and
`backend/services/email_service.py` (the thread-lifecycle updates applied
after a threading decision).  Strings are modelled as `List Char`,
datetimes as integer timestamps in seconds, and floating-point confidence
scores as rationals.
-/

namespace EmailModule

/-- Strings of the Python program, modelled as lists of characters. -/
abbrev Str := List Char

/-- ASCII whitespace, the character class matched by Python's `\s`,
`str.split()` and `str.strip()` on the inputs modelled here. -/
def isPySpace (c : Char) : Bool :=
  c = ' ' || c = '\t' || c = '\n' || c = '\r' || c = Char.ofNat 11 || c = Char.ofNat 12

/-- The ASCII case table: each upper-case letter paired with its
lower-case form. -/
def caseTable : List (Char × Char) :=
  [('A', 'a'), ('B', 'b'), ('C', 'c'), ('D', 'd'), ('E', 'e'), ('F', 'f'),
   ('G', 'g'), ('H', 'h'), ('I', 'i'), ('J', 'j'), ('K', 'k'), ('L', 'l'),
   ('M', 'm'), ('N', 'n'), ('O', 'o'), ('P', 'p'), ('Q', 'q'), ('R', 'r'),
   ('S', 's'), ('T', 't'), ('U', 'u'), ('V', 'v'), ('W', 'w'), ('X', 'x'),
   ('Y', 'y'), ('Z', 'z')]

/-- Python `str.lower()` on a single character (ASCII letters). -/
def pyLower (c : Char) : Char :=
  match caseTable.find? (fun p => decide (p.1 = c)) with
  | some p => p.2
  | none => c

/-- Python `str.upper()` on a single character (ASCII letters). -/
def pyUpper (c : Char) : Char :=
  match caseTable.find? (fun p => decide (p.2 = c)) with
  | some p => p.1
  | none => c

/-- Python `str.lower()`. -/
def lowerStr (s : Str) : Str := s.map pyLower

/-- Drop the given character class from both ends, as Python `str.strip(chars)`. -/
def stripChars (p : Char → Bool) (s : Str) : Str :=
  ((s.dropWhile p).reverse.dropWhile p).reverse

/-- Python `str.strip()` (whitespace from both ends). -/
def pyStrip (s : Str) : Str := stripChars isPySpace s

/-- Python `str.split()` (split on whitespace runs, dropping empty pieces),
written with explicit fuel so that it is structurally recursive. -/
def pySplitFuel : Nat → Str → List Str
  | 0, _ => []
  | n + 1, s =>
    match s.dropWhile isPySpace with
    | [] => []
    | c :: cs =>
      (c :: cs).takeWhile (fun x => !isPySpace x) ::
        pySplitFuel n ((c :: cs).dropWhile (fun x => !isPySpace x))

/-- Python `str.split()`. -/
def pySplit (s : Str) : List Str := pySplitFuel s.length s

/-- Python `" ".join(words)`. -/
def joinSpace : List Str → Str
  | [] => []
  | [w] => w
  | w :: ws => w ++ ' ' :: joinSpace ws

/-- Python `" ".join(s.split())`: collapse whitespace runs to single spaces
and trim the ends. -/
def collapse (s : Str) : Str := joinSpace (pySplit s)

/-- The reply/forward tokens of the `SUBJECT_PREFIXES` regular expression
`^(re|fwd?|aw|rv|enc|tr|vs|sv|antw|odp|yant|doorst):\s*` (with `fwd?`
expanded into the two alternatives `fwd`, `fw`). -/
def tokenList : List Str :=
  ["re".data, "fwd".data, "fw".data, "aw".data, "rv".data, "enc".data,
   "tr".data, "vs".data, "sv".data, "antw".data, "odp".data, "yant".data,
   "doorst".data]

/-- Case-insensitive test that `pat` (given in lower case) starts `s`. -/
def ciStartsWith (pat s : Str) : Bool :=
  decide ((s.take pat.length).map pyLower = pat)

/-- The token (if any) whose `token ++ ":"` starts `s` case-insensitively. -/
def findTok (s : Str) : Option Str :=
  tokenList.find? (fun tok => ciStartsWith (tok ++ [':']) s)

/-- One application of `SUBJECT_PREFIXES.sub("", s)`: remove a leading
reply/forward token, its colon and the following whitespace. -/
def stripTokOnce (s : Str) : Str :=
  match findTok s with
  | some tok => (s.drop (tok.length + 1)).dropWhile isPySpace
  | none => s

/-- One application of `SUBJECT_BRACKETS.sub("", s)` for the pattern
`^\[.*?\]\s*`: remove a leading bracketed tag whose closing bracket is
reached without crossing a newline (Python `.` does not match `\n`). -/
def bracketStrip (s : Str) : Str :=
  match s with
  | '[' :: rest =>
    match rest.dropWhile (fun c => !(c = ']' || c = '\n')) with
    | ']' :: tail => tail.dropWhile isPySpace
    | _ => s
  | _ => s

/-- One iteration of the normalisation loop body: the token substitution
followed by the bracket substitution. -/
def stripStep (s : Str) : Str := bracketStrip (stripTokOnce s)

/-- The `while True` loop of `_normalize_subject`, run with explicit fuel:
iterate `stripStep` until it makes no change. -/
def stripLoopFuel : Nat → Str → Str
  | 0, s => s
  | n + 1, s =>
    let s2 := stripStep s
    if s2 = s then s else stripLoopFuel n s2

/-- The normalisation loop with sufficient fuel (each productive step
removes at least one character). -/
def stripAll (s : Str) : Str := stripLoopFuel s.length s

/-- `EmailThreadingEngine._normalize_subject`: strip reply/forward tokens
and bracketed tags repeatedly, collapse whitespace, trim and lower-case. -/
def normalizeSubject (s : Str) : Str :=
  if s = [] then []
  else lowerStr (pyStrip (collapse (stripAll s)))

/-- `EmailThreadingEngine._clean_message_id`: trim whitespace, then strip
surrounding angle brackets. -/
def cleanMessageId (s : Str) : Str :=
  if s = [] then []
  else stripChars (fun c => c = '<' || c = '>') (pyStrip s)

/-- One entry of the `internetMessageHeaders` list of a Graph payload. -/
structure HeaderRec where
  name : Str
  value : Str
deriving DecidableEq

/-- The fields of the Graph API `email_data` dictionary that the threading
engine reads.  Absent dictionary keys are modelled by the defaults the
Python `dict.get` calls supply (`[]` for strings read with default `""`,
`none` for keys read without a default). -/
structure EmailData where
  subject : Str := []
  bodyPreview : Str := []
  conversationId : Option Str := none
  headers : List HeaderRec := []
  referencesField : Str := []
  fromAddr : Str := []
  toRecipients : List Str := []
  ccRecipients : List Str := []
  receivedDateTime : Option Str := none
deriving DecidableEq

/-- A persisted `Email` row, restricted to the columns the engine queries.
`thread_id` is a non-nullable column; `internet_message_id` and
`received_date_time` are nullable. -/
structure EmailRec where
  id : Str
  thread_id : Str
  from_address : Str := []
  to_recipients : List Str := []
  cc_recipients : List Str := []
  subject : Str := []
  internet_message_id : Option Str := none
  received_date_time : Option Int := none
deriving DecidableEq

/-- A persisted `EmailThread` row, restricted to the columns read or
written by the threading core and the lifecycle updates. -/
structure ThreadRec where
  id : Str
  subject : Str := []
  email_type : Option Str := none
  conversation_id : Option Str := none
  tax_email_id : Option Str := none
  first_message_id : Option Str := none
  last_message_id : Option Str := none
  message_count : Option Nat := some 0
  last_activity_at : Option Int := none
  status : Str := "awaiting_reply".data
deriving DecidableEq

/-- The database state visible to the engine: the `emails` and
`email_threads` tables, in row order. -/
structure Store where
  emails : List EmailRec := []
  threads : List ThreadRec := []
deriving DecidableEq

/-- `ThreadingResult`, the resolver's decision record. -/
structure ThreadingResult where
  thread_id : Str
  confidence : ℚ
  method : Str
  parent_id : Option Str := none
  is_new : Bool := false
deriving DecidableEq

/-- Modelled from the spec: the collaborators the engine calls but whose
code is outside the embedded sources — the external Classifier
(`EmailClassifier.classify(subject, preview) → category label`, declared an
external collaborator by the spec; `classification_service.py` is not among
the sources), the symmetric character-sequence similarity ratio in `[0,1]`
(computed by the Python standard library `difflib`), and ISO-8601 timestamp
parsing (`datetime.fromisoformat`, returning `none` when the standard
library would raise `ValueError`). -/
structure Ext where
  classify : Str → Str → Str
  similarity : Str → Str → ℚ
  parseIso : Str → Option Int

/-- `EmailThreadingEngine._extract_from_address`. -/
def extractFromAddress (d : EmailData) : Str := lowerStr d.fromAddr

/-- `EmailThreadingEngine._extract_recipients`: keep the non-empty
addresses, lower-cased. -/
def extractRecipients (field : List Str) : List Str :=
  (field.filter (fun a => !a.isEmpty)).map lowerStr

/-- Python truthiness of a nullable string column. -/
def optTruthy : Option Str → Bool
  | some s => !s.isEmpty
  | none => false

/-- Whether `a` is a strictly more recent `received_date_time` than `b`
(`NULL` sorts as oldest, as under SQLite `ORDER BY ... DESC`). -/
def recvAfter (a b : Option Int) : Bool :=
  match a, b with
  | some x, some y => decide (y < x)
  | some _, none => true
  | _, _ => false

/-- `query.order_by(Email.received_date_time.desc()).first()`: the first
row (in table order) carrying the maximal received time. -/
def latestByReceived (l : List EmailRec) : Option EmailRec :=
  l.foldl
    (fun acc e =>
      match acc with
      | none => some e
      | some m =>
        if recvAfter e.received_date_time m.received_date_time then some e else some m)
    none

/-- The layer-1 store query: emails joined to a thread of the given
category and involving the participant as sender or `to` recipient,
most recent first. -/
def participantTagQuery (store : Store) (emailType p : Str) : Option EmailRec :=
  latestByReceived (store.emails.filter (fun e =>
    store.threads.any (fun t =>
      decide (e.thread_id = t.id) && decide (t.email_type = some emailType)) &&
    (decide (e.from_address = p) || decide (p ∈ e.to_recipients))))

/-- `EmailThreadingEngine._check_participant_tag_thread` (layer 1). -/
def checkParticipantTagThread (ext : Ext) (store : Store) (d : EmailData)
    (userEmail : Option Str) : Option ThreadingResult :=
  match userEmail with
  | none => none
  | some ue =>
    let fromAddress := extractFromAddress d
    let participant : Option Str :=
      if fromAddress = lowerStr ue then (extractRecipients d.toRecipients).head?
      else some fromAddress
    match participant with
    | none => none
    | some p =>
      if p = [] then none
      else
        let emailType := ext.classify d.subject d.bodyPreview
        match participantTagQuery store emailType p with
        | some e =>
          if e.thread_id ≠ [] then
            some ⟨e.thread_id, 1, "participant_tag_match".data, some e.id, false⟩
          else none
        | none => none

/-- `EmailThreadingEngine._check_conversation_id` (layer 2). -/
def checkConversationId (store : Store) (d : EmailData) : Option ThreadingResult :=
  match d.conversationId with
  | none => none
  | some cid =>
    if cid = [] then none
    else
      match store.threads.find? (fun t => decide (t.conversation_id = some cid)) with
      | some t => some ⟨t.id, 1, "conversation_id".data, none, false⟩
      | none => none

/-- The direct part of `_check_custom_header`: scan the header list for a
header named exactly `X-Tax-Email-ID` (case-sensitive `==` in the source)
whose value is the tracking id of a stored thread. -/
def findDirectTax (store : Store) : List HeaderRec → Option ThreadingResult
  | [] => none
  | h :: hs =>
    if h.name = "X-Tax-Email-ID".data ∧ h.value ≠ [] then
      match store.threads.find? (fun t => decide (t.tax_email_id = some h.value)) with
      | some t => some ⟨t.id, mkRat 95 100, "custom_header_direct".data, none, false⟩
      | none => findDirectTax store hs
    else findDirectTax store hs

/-- Substring test (Python `needle in hay`). -/
def hasSubstr (needle : Str) : Str → Bool
  | [] => needle.isEmpty
  | c :: rest => needle.isPrefixOf (c :: rest) || hasSubstr needle rest

/-- Python `"TAX_" in ref.upper()`. -/
def containsTaxUpper (ref : Str) : Bool :=
  hasSubstr "TAX_".data (ref.map pyUpper)

/-- The character class `[A-Za-z0-9_-]`. -/
def isTaxWordChar (c : Char) : Bool :=
  c.isAlpha || c.isDigit || c = '_' || c = '-'

/-- A match of `TAX_[A-Za-z0-9_-]+` (IGNORECASE) anchored at the start of
`s`, returning the matched text with original casing. -/
def taxMatchAt : Str → Option Str
  | c1 :: c2 :: c3 :: c4 :: tail =>
    if pyLower c1 = 't' ∧ pyLower c2 = 'a' ∧ pyLower c3 = 'x' ∧ c4 = '_' then
      let w := tail.takeWhile isTaxWordChar
      if w = [] then none else some (c1 :: c2 :: c3 :: c4 :: w)
    else none
  | _ => none

/-- `re.search(r'TAX_[A-Za-z0-9_-]+', ref, re.IGNORECASE)`: the leftmost
match. -/
def taxSearch : Str → Option Str
  | [] => none
  | c :: rest =>
    match taxMatchAt (c :: rest) with
    | some m => some m
    | none => taxSearch rest

/-- The references string used by `_check_custom_header`: the value of the
first header named `references` (case-insensitively), defaulting to the
payload's top-level `references` entry. -/
def referencesForTax (d : EmailData) : Str :=
  match d.headers.find? (fun h => decide (lowerStr h.name = "references".data)) with
  | some h => h.value
  | none => d.referencesField

/-- The references part of `_check_custom_header`: scan the
whitespace-separated reference tokens for an embedded tracking id naming a
stored thread. -/
def scanRefsForTax (store : Store) : List Str → Option ThreadingResult
  | [] => none
  | ref :: rest =>
    if containsTaxUpper ref then
      match taxSearch ref with
      | some taxId =>
        match store.threads.find? (fun t => decide (t.tax_email_id = some taxId)) with
        | some t => some ⟨t.id, mkRat 85 100, "custom_header_in_references".data, none, false⟩
        | none => scanRefsForTax store rest
      | none => scanRefsForTax store rest
    else scanRefsForTax store rest

/-- `EmailThreadingEngine._check_custom_header` (layer 3). -/
def checkCustomHeader (store : Store) (d : EmailData) : Option ThreadingResult :=
  match findDirectTax store d.headers with
  | some r => some r
  | none =>
    let refs := referencesForTax d
    if refs = [] then none
    else scanRefsForTax store (pySplit refs)

/-- `EmailThreadingEngine._check_in_reply_to` (layer 4). -/
def checkInReplyTo (store : Store) (d : EmailData) : Option ThreadingResult :=
  let irt : Str :=
    match d.headers.find? (fun h => decide (lowerStr h.name = "in-reply-to".data)) with
    | some h => pyStrip h.value
    | none => []
  if irt.isEmpty then none
  else
    let mid := cleanMessageId irt
    match store.emails.find? (fun e => decide (e.internet_message_id = some mid)) with
    | some parent =>
      if parent.thread_id ≠ [] then
        some ⟨parent.thread_id, mkRat 99 100, "rfc_in_reply_to".data, some parent.id, false⟩
      else none
    | none => none

/-- The scan of `_check_references` over the cleaned reference ids, most
recent (last) first. -/
def firstRefHit (store : Store) : List Str → Option ThreadingResult
  | [] => none
  | rid :: rest =>
    if rid = [] then firstRefHit store rest
    else
      match store.emails.find? (fun e => decide (e.internet_message_id = some rid)) with
      | some parent =>
        if parent.thread_id ≠ [] then
          some ⟨parent.thread_id, mkRat 95 100, "rfc_references".data, some parent.id, false⟩
        else firstRefHit store rest
      | none => firstRefHit store rest

/-- `EmailThreadingEngine._check_references` (layer 5). -/
def checkReferences (store : Store) (d : EmailData) : Option ThreadingResult :=
  match d.headers.find? (fun h => decide (lowerStr h.name = "references".data)) with
  | none => none
  | some h =>
    if h.value = [] then none
    else firstRefHit store (((pySplit h.value).map cleanMessageId).reverse)

/-- The participant set of the new message: `set(to + cc)` plus the sender
when non-empty. -/
def currentRecipientSet (d : EmailData) : Finset Str :=
  let base := (extractRecipients d.toRecipients ++ extractRecipients d.ccRecipients).toFinset
  let f := extractFromAddress d
  if f ≠ [] then insert f base else base

/-- The participant set of a stored email:
`set((to or []) + (cc or []) + [from_address])`. -/
def storedRecipientSet (e : EmailRec) : Finset Str :=
  (e.to_recipients ++ e.cc_recipients ++ [e.from_address]).toFinset

/-- The layer-6 store query: emails received in the trailing 30 days,
capped at 500 rows. -/
def recentSubjectEmails (now : Int) (store : Store) : List EmailRec :=
  (store.emails.filter (fun e =>
    match e.received_date_time with
    | some r => decide (now - 2592000 ≤ r)
    | none => false)).take 500

/-- The candidate scan of `_check_subject_matching`. -/
def scanSubject (ext : Ext) (ns : Str) (current : Finset Str) :
    List EmailRec → Option ThreadingResult
  | [] => none
  | e :: rest =>
    if mkRat 9 10 ≤ ext.similarity ns (normalizeSubject e.subject) then
      if 1 ≤ (current ∩ storedRecipientSet e).card then
        some ⟨e.thread_id, mkRat 7 10, "subject_matching".data, some e.id, false⟩
      else scanSubject ext ns current rest
    else scanSubject ext ns current rest

/-- `EmailThreadingEngine._check_subject_matching` (layer 6). -/
def checkSubjectMatching (ext : Ext) (now : Int) (store : Store) (d : EmailData) :
    Option ThreadingResult :=
  if d.subject = [] then none
  else
    let ns := normalizeSubject d.subject
    if ns.length < 5 then none
    else
      scanSubject ext ns (currentRecipientSet d) (recentSubjectEmails now store)

/-- The layer-7 store query: emails received in the window `[lo, hi]`,
capped at 100 rows. -/
def timeWindowEmails (store : Store) (lo hi : Int) : List EmailRec :=
  (store.emails.filter (fun e =>
    match e.received_date_time with
    | some r => decide (lo ≤ r) && decide (r ≤ hi)
    | none => false)).take 100

/-- The candidate scan of `_check_time_recipient_matching`, accepting the
first candidate whose participant-set Jaccard overlap reaches 0.70. -/
def scanTimeRecipients (current : Finset Str) : List EmailRec → Option ThreadingResult
  | [] => none
  | e :: rest =>
    let ex := storedRecipientSet e
    if ex = ∅ then scanTimeRecipients current rest
    else
      let inter := (current ∩ ex).card
      let uni := (current ∪ ex).card
      if 0 < uni then
        if mkRat 7 10 ≤ mkRat inter uni then
          some ⟨e.thread_id, mkRat 5 10, "time_recipient_matching".data, some e.id, false⟩
        else scanTimeRecipients current rest
      else scanTimeRecipients current rest

/-- Python `s.replace("Z", "+00:00")`, applied before `fromisoformat`. -/
def pyReplaceZ : Str → Str
  | [] => []
  | c :: rest =>
    if c = 'Z' then '+' :: '0' :: '0' :: ':' :: '0' :: '0' :: pyReplaceZ rest
    else c :: pyReplaceZ rest

/-- `EmailThreadingEngine._check_time_recipient_matching` (layer 7).  The
only failure point of the engine: a present, non-empty but unparseable
`receivedDateTime` makes `datetime.fromisoformat` raise, modelled as
`Except.error`. -/
def checkTimeRecipientMatching (ext : Ext) (now : Int) (store : Store)
    (d : EmailData) : Except Str (Option ThreadingResult) :=
  let current := currentRecipientSet d
  if current.card < 2 then .ok none
  else
    match d.receivedDateTime with
    | some s =>
      if s = [] then
        .ok (scanTimeRecipients current (timeWindowEmails store (now - 86400) now))
      else
        match ext.parseIso (pyReplaceZ s) with
        | some t =>
          .ok (scanTimeRecipients current (timeWindowEmails store (t - 86400) t))
        | none => .error "ValueError".data
    | none =>
      .ok (scanTimeRecipients current (timeWindowEmails store (now - 86400) now))

/-- The seven matchers of `thread_email`, tried in priority order with
short-circuiting; `ok none` means every matcher declined. -/
def matchLayers (ext : Ext) (now : Int) (store : Store) (d : EmailData)
    (userEmail : Option Str) : Except Str (Option ThreadingResult) :=
  match checkParticipantTagThread ext store d userEmail with
  | some r => .ok (some r)
  | none =>
  match checkConversationId store d with
  | some r => .ok (some r)
  | none =>
  match checkCustomHeader store d with
  | some r => .ok (some r)
  | none =>
  match checkInReplyTo store d with
  | some r => .ok (some r)
  | none =>
  match checkReferences store d with
  | some r => .ok (some r)
  | none =>
  match checkSubjectMatching ext now store d with
  | some r => .ok (some r)
  | none => checkTimeRecipientMatching ext now store d

/-- `EmailThreadingEngine.thread_email`: first matcher hit, else a new
thread under the freshly minted id `freshId` (the `uuid.uuid4()` value of
this call). -/
def threadEmail (ext : Ext) (now : Int) (freshId : Str) (store : Store)
    (d : EmailData) (userEmail : Option Str) : Except Str ThreadingResult :=
  match matchLayers ext now store d userEmail with
  | .error e => .error e
  | .ok (some r) => .ok r
  | .ok none => .ok ⟨freshId, 0, "new_thread".data, none, true⟩

/-- The fixed confidence constant the source attaches to each method tag. -/
def methodConfidence (m : Str) : ℚ :=
  if m = "participant_tag_match".data then 1
  else if m = "conversation_id".data then 1
  else if m = "custom_header_direct".data then mkRat 95 100
  else if m = "custom_header_in_references".data then mkRat 85 100
  else if m = "rfc_in_reply_to".data then mkRat 99 100
  else if m = "rfc_references".data then mkRat 95 100
  else if m = "subject_matching".data then mkRat 7 10
  else if m = "time_recipient_matching".data then mkRat 5 10
  else 0

/-- The thread-metadata update of `EmailService.sync_email_from_graph`
(lines 110–140): set the last message, update `last_activity_at` by the
three-branch conditional, bump the count, set the first message if unset,
and flip the status to `replied` for an incoming message. -/
def syncThreadUpdate (th : ThreadRec) (emailId : Str) (ts : Int)
    (fromAddr userEmail : Str) : ThreadRec :=
  let th1 := { th with last_message_id := some emailId }
  let th2 :=
    if th1.last_activity_at = none ∨ th1.message_count = some 0 then
      { th1 with last_activity_at := some ts }
    else if (match th1.last_activity_at with
             | some cur => decide (cur < ts)
             | none => false) then
      { th1 with last_activity_at := some ts }
    else if th1.message_count = some 0 then
      { th1 with last_activity_at := some ts }
    else th1
  let th3 := { th2 with message_count := some (th2.message_count.getD 0 + 1) }
  let th4 :=
    if optTruthy th3.first_message_id = false then
      { th3 with first_message_id := some emailId }
    else th3
  if lowerStr fromAddr ≠ lowerStr userEmail then
    { th4 with status := "replied".data }
  else th4

/-- The thread-metadata update of `EmailService.send_email`
(lines 398–403): set the last message, set `last_activity_at` to the
current clock unconditionally, bump the count, set the first message if
unset. -/
def sendThreadUpdate (th : ThreadRec) (emailId : Str) (now : Int) : ThreadRec :=
  let th1 := { th with
    last_message_id := some emailId
    last_activity_at := some now
    message_count := some (th.message_count.getD 0 + 1) }
  if optTruthy th1.first_message_id = false then
    { th1 with first_message_id := some emailId }
  else th1

/-- A string that does not begin with whitespace. -/
def noLead (s : Str) : Prop := ∀ c, s.head? = some c → isPySpace c = false

/-- A subject that neither begins with whitespace nor contains a newline. -/
def tame (s : Str) : Bool := (match s with | [] => true | c :: _ => !isPySpace c) && !s.contains '\n'

/-- Engine results are decidably equal, so concrete runs can be checked. -/
instance {ε α : Type} [DecidableEq ε] [DecidableEq α] : DecidableEq (Except ε α) := fun a b =>
  match a, b with
  | .ok x, .ok y => decidable_of_iff (x = y) (by simp)
  | .error x, .error y => decidable_of_iff (x = y) (by simp)
  | .ok _, .error _ => isFalse (by simp)
  | .error _, .ok _ => isFalse (by simp)

/-- A concrete collaborator bundle with the given similarity function. -/
def extOf (sim : Str → Str → ℚ) : Ext :=
  { classify := fun _ _ => "GENERAL".data
    similarity := sim
    parseIso := fun _ => none }

/-- Sample collaborators: similarity 1 on equal normalized subjects. -/
def extSample : Ext := extOf (fun a b => if a = b then 1 else 0)

/-- Sample collaborators whose similarity is the constant 0.90. -/
def extNinety : Ext := extOf (fun _ _ => mkRat 9 10)

/-- Sample collaborators whose similarity is the constant 0.89. -/
def extEightyNine : Ext := extOf (fun _ _ => mkRat 89 100)

/-- An empty Graph payload. -/
def dEmpty : EmailData := {}

/-- A stored email from `client@y.com` in thread `T1`. -/
def e1 : EmailRec :=
  { id := "e1".data, thread_id := "T1".data, from_address := "client@y.com".data
    subject := "hello there".data, received_date_time := some 100 }

/-- Thread `T1`, categorised `GENERAL`. -/
def t1 : ThreadRec := { id := "T1".data, email_type := some "GENERAL".data }

/-- Thread `T2`, holding the provider conversation id `CID`. -/
def t2 : ThreadRec := { id := "T2".data, conversation_id := some "CID".data }

/-- A store where both a conversation-id match and a participant+category
match are available. -/
def store2 : Store := { emails := [e1], threads := [t1, t2] }

/-- An incoming message from `client@y.com` carrying conversation id `CID`
and a subject identical to the stored email's. -/
def d2 : EmailData :=
  { subject := "hello there".data, fromAddr := "client@y.com".data
    conversationId := some "CID".data, toRecipients := ["me@x.com".data] }

/-- A stored email received exactly 24 hours before time 1000000. -/
def e6 : EmailRec :=
  { id := "e6".data, thread_id := "T6".data, from_address := "a@x".data
    to_recipients := ["b@x".data], received_date_time := some (1000000 - 86400) }

/-- A message with the same two participants as `e6` and no timestamp. -/
def d6 : EmailData := { fromAddr := "a@x".data, toRecipients := ["b@x".data] }

/-- A store holding only `e6`. -/
def store6 : Store := { emails := [e6] }

/-- A thread that already has one message and activity at time 100. -/
def th7 : ThreadRec :=
  { id := "T7".data, message_count := some 1, last_activity_at := some 100 }

/-- A payload carrying the tracking header under upper-case naming. -/
def d8 : EmailData := { headers := [⟨"X-TAX-EMAIL-ID".data, "TAX_abc".data⟩] }

/-- A payload carrying the tracking header under its exact name. -/
def d8b : EmailData := { headers := [⟨"X-Tax-Email-ID".data, "TAX_abc".data⟩] }

/-- A thread whose tracking id is `TAX_abc`. -/
def t8 : ThreadRec := { id := "T8".data, tax_email_id := some "TAX_abc".data }

/-- A store with a thread whose tracking id is `TAX_abc`. -/
def store8 : Store := { threads := [t8] }

/-- A freshly created thread: no activity, zero messages. -/
def thFresh : ThreadRec := { id := "TF".data }

/-- A two-participant message with an unparseable timestamp string. -/
def d9 : EmailData :=
  { fromAddr := "a@x".data, toRecipients := ["b@x".data]
    receivedDateTime := some "garbage".data }

/-- A two-participant message with no timestamp. -/
def d9b : EmailData := { fromAddr := "a@x".data, toRecipients := ["b@x".data] }

/-- A two-participant message whose timestamp key holds the empty string. -/
def d9c : EmailData :=
  { fromAddr := "a@x".data, toRecipients := ["b@x".data]
    receivedDateTime := some [] }

/-- A candidate store email for the fuzzy-subject boundary scenario. -/
def e5 : EmailRec :=
  { id := "e5".data, thread_id := "T5".data, from_address := "a@x".data
    subject := "project update".data, received_date_time := some 999000 }

/-- A store holding only `e5`. -/
def store5 : Store := { emails := [e5] }

/-- A message sharing a participant with `e5` and a long-enough subject. -/
def d5 : EmailData := { subject := "project update".data, fromAddr := "a@x".data }

/-- A message whose normalized subject is shorter than five characters. -/
def d5short : EmailData := { subject := "Re: hi".data, fromAddr := "a@x".data }

/-- The well-behaved shape of every matcher-produced decision. -/
def goodShape (r : ThreadingResult) : Prop :=
  r.confidence = methodConfidence r.method ∧ r.is_new = false ∧
  r.method ≠ "new_thread".data

/-- The empty store. -/
def storeEmpty : Store := {}

/-- Collaborators that parse exactly one timestamp string, to 1000000. -/
def ext6 : Ext :=
  { classify := fun _ _ => "GENERAL".data
    similarity := fun _ _ => 0
    parseIso := fun s => if s = "2024-01-01T00:00:00+00:00".data then some 1000000 else none }

/-- A message timestamped at 1000000 with the same participants as `e6`. -/
def d6t : EmailData :=
  { fromAddr := "a@x".data, toRecipients := ["b@x".data]
    receivedDateTime := some "2024-01-01T00:00:00+00:00".data }


/-- Projections of a matcher decision record satisfy the decision-shape
invariant once its concrete fields do. -/
theorem goodShape_mk (tid : Str) (pid : Option Str) (m : Str) (c : ℚ)
    (hm : c = methodConfidence m) (hne : m ≠ "new_thread".data) :
    goodShape ⟨tid, c, m, pid, false⟩ :=
  ⟨hm, rfl, hne⟩

theorem checkParticipantTagThread_shape (ext : Ext) (store : Store) (d : EmailData)
    (ue : Option Str) (r : ThreadingResult)
    (h : checkParticipantTagThread ext store d ue = some r) : goodShape r := by
  simp only [checkParticipantTagThread] at h
  repeat' split at h
  all_goals first
    | exact Option.noConfusion h
    | (injection h with h; subst h; exact goodShape_mk _ _ _ _ (by decide) (by decide))

theorem checkConversationId_shape (store : Store) (d : EmailData) (r : ThreadingResult)
    (h : checkConversationId store d = some r) : goodShape r := by
  simp only [checkConversationId] at h
  repeat' split at h
  all_goals first
    | exact Option.noConfusion h
    | (injection h with h; subst h; exact goodShape_mk _ _ _ _ (by decide) (by decide))

theorem findDirectTax_shape (store : Store) :
    ∀ hs r, findDirectTax store hs = some r → goodShape r := by
  intro hs
  induction hs with
  | nil => intro r h; exact Option.noConfusion h
  | cons hd tl ih =>
    intro r h
    simp only [findDirectTax] at h
    split at h
    · split at h
      · injection h with h; subst h; exact goodShape_mk _ _ _ _ (by decide) (by decide)
      · exact ih r h
    · exact ih r h

theorem scanRefsForTax_shape (store : Store) :
    ∀ l r, scanRefsForTax store l = some r → goodShape r := by
  intro l
  induction l with
  | nil => intro r h; exact Option.noConfusion h
  | cons hd tl ih =>
    intro r h
    simp only [scanRefsForTax] at h
    repeat' split at h
    all_goals first
      | exact Option.noConfusion h
      | exact ih r h
      | (injection h with h; subst h; exact goodShape_mk _ _ _ _ (by decide) (by decide))

theorem checkCustomHeader_shape (store : Store) (d : EmailData) (r : ThreadingResult)
    (h : checkCustomHeader store d = some r) : goodShape r := by
  simp only [checkCustomHeader] at h
  split at h
  · next r2 heq =>
      injection h with h; subst h; exact findDirectTax_shape store _ _ heq
  · split at h
    · exact Option.noConfusion h
    · exact scanRefsForTax_shape store _ _ h

theorem checkInReplyTo_shape (store : Store) (d : EmailData) (r : ThreadingResult)
    (h : checkInReplyTo store d = some r) : goodShape r := by
  simp only [checkInReplyTo] at h
  repeat' split at h
  all_goals first
    | exact Option.noConfusion h
    | (injection h with h; subst h; exact goodShape_mk _ _ _ _ (by decide) (by decide))

theorem firstRefHit_shape (store : Store) :
    ∀ l r, firstRefHit store l = some r → goodShape r := by
  intro l
  induction l with
  | nil => intro r h; exact Option.noConfusion h
  | cons hd tl ih =>
    intro r h
    simp only [firstRefHit] at h
    repeat' split at h
    all_goals first
      | exact Option.noConfusion h
      | exact ih r h
      | (injection h with h; subst h; exact goodShape_mk _ _ _ _ (by decide) (by decide))

theorem checkReferences_shape (store : Store) (d : EmailData) (r : ThreadingResult)
    (h : checkReferences store d = some r) : goodShape r := by
  simp only [checkReferences] at h
  repeat' split at h
  all_goals first
    | exact Option.noConfusion h
    | exact firstRefHit_shape store _ _ h

theorem scanSubject_shape (ext : Ext) (ns : Str) (cur : Finset Str) :
    ∀ l r, scanSubject ext ns cur l = some r → goodShape r := by
  intro l
  induction l with
  | nil => intro r h; exact Option.noConfusion h
  | cons hd tl ih =>
    intro r h
    simp only [scanSubject] at h
    repeat' split at h
    all_goals first
      | exact Option.noConfusion h
      | exact ih r h
      | (injection h with h; subst h; exact goodShape_mk _ _ _ _ (by decide) (by decide))

theorem checkSubjectMatching_shape (ext : Ext) (now : Int) (store : Store)
    (d : EmailData) (r : ThreadingResult)
    (h : checkSubjectMatching ext now store d = some r) : goodShape r := by
  simp only [checkSubjectMatching] at h
  repeat' split at h
  all_goals first
    | exact Option.noConfusion h
    | exact scanSubject_shape ext _ _ _ _ h

theorem scanTimeRecipients_shape (cur : Finset Str) :
    ∀ l r, scanTimeRecipients cur l = some r → goodShape r := by
  intro l
  induction l with
  | nil => intro r h; exact Option.noConfusion h
  | cons hd tl ih =>
    intro r h
    simp only [scanTimeRecipients] at h
    repeat' split at h
    all_goals first
      | exact Option.noConfusion h
      | exact ih r h
      | (injection h with h; subst h; exact goodShape_mk _ _ _ _ (by decide) (by decide))

theorem checkTimeRecipientMatching_shape (ext : Ext) (now : Int) (store : Store)
    (d : EmailData) (r : ThreadingResult)
    (h : checkTimeRecipientMatching ext now store d = .ok (some r)) : goodShape r := by
  simp only [checkTimeRecipientMatching] at h
  repeat' split at h
  all_goals first
    | exact Except.noConfusion h
    | (injection h with h; exact Option.noConfusion h)
    | (injection h with h; exact scanTimeRecipients_shape _ _ _ h)

theorem matchLayers_shape (ext : Ext) (now : Int) (store : Store) (d : EmailData)
    (ue : Option Str) (r : ThreadingResult)
    (h : matchLayers ext now store d ue = .ok (some r)) : goodShape r := by
  unfold matchLayers at h
  cases h1 : checkParticipantTagThread ext store d ue with
  | some r2 =>
    rw [h1] at h
    injection h with h; injection h with h; subst h
    exact checkParticipantTagThread_shape ext store d ue _ h1
  | none =>
  rw [h1] at h
  cases h2 : checkConversationId store d with
  | some r2 =>
    rw [h2] at h
    injection h with h; injection h with h; subst h
    exact checkConversationId_shape store d _ h2
  | none =>
  rw [h2] at h
  cases h3 : checkCustomHeader store d with
  | some r2 =>
    rw [h3] at h
    injection h with h; injection h with h; subst h
    exact checkCustomHeader_shape store d _ h3
  | none =>
  rw [h3] at h
  cases h4 : checkInReplyTo store d with
  | some r2 =>
    rw [h4] at h
    injection h with h; injection h with h; subst h
    exact checkInReplyTo_shape store d _ h4
  | none =>
  rw [h4] at h
  cases h5 : checkReferences store d with
  | some r2 =>
    rw [h5] at h
    injection h with h; injection h with h; subst h
    exact checkReferences_shape store d _ h5
  | none =>
  rw [h5] at h
  cases h6 : checkSubjectMatching ext now store d with
  | some r2 =>
    rw [h6] at h
    injection h with h; injection h with h; subst h
    exact checkSubjectMatching_shape ext now store d _ h6
  | none =>
  rw [h6] at h
  exact checkTimeRecipientMatching_shape ext now store d _ h

theorem storedRecipientSet_mem_from (e : EmailRec) :
    e.from_address ∈ storedRecipientSet e := by
  simp [storedRecipientSet]

theorem scanSubject_none (ext : Ext) (ns : Str) (cur : Finset Str) :
    ∀ l, (∀ x ∈ l, ext.similarity ns (normalizeSubject x.subject) = mkRat 89 100) →
      scanSubject ext ns cur l = none := by
  intro l
  induction l with
  | nil => intro _; rfl
  | cons e tl ih =>
    intro hall
    unfold scanSubject
    rw [hall e (List.mem_cons_self e tl), if_neg (by decide)]
    exact ih fun x hx => hall x (List.mem_cons_of_mem e hx)

theorem syncThreadUpdate_last_activity (th : ThreadRec) (emailId : Str) (ts : Int) (f u : Str) :
    (syncThreadUpdate th emailId ts f u).last_activity_at =
      if th.last_activity_at = none ∨ th.message_count = some 0 then some ts
      else if (match th.last_activity_at with
               | some cur => decide (cur < ts)
               | none => false) then some ts
      else th.last_activity_at := by
  obtain ⟨i, sj, et, ci, tx, fm, lm, mc, la, st⟩ := th
  simp only [syncThreadUpdate]
  (repeat' split) <;> simp_all

theorem sendThreadUpdate_last_activity (th : ThreadRec) (emailId : Str) (now : Int) :
    (sendThreadUpdate th emailId now).last_activity_at = some now := by
  obtain ⟨i, sj, et, ci, tx, fm, lm, mc, la, st⟩ := th
  simp only [sendThreadUpdate]
  (repeat' split) <;> rfl


/-- C1 (counterexample): the claim fails in the minted-new-thread case —
two `thread_email` calls on the identical (empty) store and identical
(empty) input return decisions that differ in the thread id, because each
call mints a fresh `uuid.uuid4()` value (modelled as the per-call
`freshId` argument). -/
theorem c1_determinism_counterexample :
    threadEmail extSample 0 "a".data storeEmpty dEmpty none ≠
      threadEmail extSample 0 "b".data storeEmpty dEmpty none := by
  decide

/-- C1 (amended): two `thread_email` calls with identical store state,
identical input and identical clock reading return decisions identical in
confidence, method, parent id and the is-new flag; when some matcher fires
(is-new false) the decisions are identical in every field, while in the
new-thread case the thread id is whichever fresh uuid the call minted. -/
theorem c1_determinism_amended (ext : Ext) (now : Int) (fid1 fid2 : Str)
    (store : Store) (d : EmailData) (ue : Option Str) (r1 r2 : ThreadingResult)
    (h1 : threadEmail ext now fid1 store d ue = .ok r1)
    (h2 : threadEmail ext now fid2 store d ue = .ok r2) :
    r1.confidence = r2.confidence ∧ r1.method = r2.method ∧
    r1.parent_id = r2.parent_id ∧ r1.is_new = r2.is_new ∧
    (r1.is_new = false → r1 = r2) := by
  unfold threadEmail at h1 h2
  cases hml : matchLayers ext now store d ue with
  | error e => rw [hml] at h1; exact absurd h1 (by simp)
  | ok o =>
    rw [hml] at h1 h2
    cases o with
    | some r =>
      simp only [Except.ok.injEq] at h1 h2
      subst h1; subst h2
      exact ⟨rfl, rfl, rfl, rfl, fun _ => rfl⟩
    | none =>
      simp only [Except.ok.injEq] at h1 h2
      subst h1; subst h2
      refine ⟨rfl, rfl, rfl, rfl, ?_⟩
      intro hfalse
      exact absurd hfalse (by simp)

/-- Witness for C1 (amended) at a concrete input. -/
theorem c1_determinism_amended_witness :
    (⟨"a".data, 0, "new_thread".data, none, true⟩ : ThreadingResult).confidence =
      (⟨"b".data, 0, "new_thread".data, none, true⟩ : ThreadingResult).confidence ∧
    (⟨"a".data, 0, "new_thread".data, none, true⟩ : ThreadingResult).method =
      (⟨"b".data, 0, "new_thread".data, none, true⟩ : ThreadingResult).method ∧
    (⟨"a".data, 0, "new_thread".data, none, true⟩ : ThreadingResult).parent_id =
      (⟨"b".data, 0, "new_thread".data, none, true⟩ : ThreadingResult).parent_id ∧
    (⟨"a".data, 0, "new_thread".data, none, true⟩ : ThreadingResult).is_new =
      (⟨"b".data, 0, "new_thread".data, none, true⟩ : ThreadingResult).is_new ∧
    ((⟨"a".data, 0, "new_thread".data, none, true⟩ : ThreadingResult).is_new = false →
      (⟨"a".data, 0, "new_thread".data, none, true⟩ : ThreadingResult) =
        ⟨"b".data, 0, "new_thread".data, none, true⟩) :=
  c1_determinism_amended extSample 0 "a".data "b".data storeEmpty dEmpty none
    ⟨"a".data, 0, "new_thread".data, none, true⟩
    ⟨"b".data, 0, "new_thread".data, none, true⟩
    (by decide) (by decide)

/-- C2 (counterexample): a message simultaneously eligible for a
conversation-id match and a fuzzy-subject match need not resolve via
conversation-id — the participant+category matcher runs first and wins
here, so the decision's method is `participant_tag_match`, not
`conversation_id`, and its thread is `T1`, not the conversation thread
`T2`. -/
theorem c2_priority_counterexample :
    (checkConversationId store2 d2).isSome ∧
    (checkSubjectMatching extSample 200 store2 d2).isSome ∧
    threadEmail extSample 200 "f".data store2 d2 (some "me@x.com".data) =
      .ok ⟨"T1".data, 1, "participant_tag_match".data, some "e1".data, false⟩ ∧
    "participant_tag_match".data ≠ "conversation_id".data := by
  decide

/-- C2 (amended): a message simultaneously eligible for a conversation-id
match and a fuzzy-subject match resolves via conversation-id (method
`conversation_id`, confidence 1.0, the matching thread's id), provided the
higher-priority participant+category matcher declines. -/
theorem c2_priority_amended (ext : Ext) (now : Int) (fid : Str) (store : Store)
    (d : EmailData) (ue : Option Str) (cid : Str) (th : ThreadRec)
    (r' : ThreadingResult)
    (h1 : checkParticipantTagThread ext store d ue = none)
    (hc : d.conversationId = some cid) (hcne : cid ≠ [])
    (hf : store.threads.find? (fun t => decide (t.conversation_id = some cid)) = some th)
    (_hsub : checkSubjectMatching ext now store d = some r') :
    threadEmail ext now fid store d ue =
      .ok ⟨th.id, 1, "conversation_id".data, none, false⟩ := by
  have hcv : checkConversationId store d =
      some ⟨th.id, 1, "conversation_id".data, none, false⟩ := by
    simp only [checkConversationId, hc, if_neg hcne, hf]
  unfold threadEmail matchLayers
  rw [h1, hcv]

/-- Witness for C2 (amended) at a concrete input. -/
theorem c2_priority_amended_witness :
    threadEmail extSample 200 "f".data store2 d2 none =
      .ok ⟨t2.id, 1, "conversation_id".data, none, false⟩ :=
  c2_priority_amended extSample 200 "f".data store2 d2 none "CID".data t2
    ⟨"T1".data, mkRat 7 10, "subject_matching".data, some "e1".data, false⟩
    (by decide) (by decide) (by decide) (by decide) (by decide)

/-- C3: when all seven matchers decline, `thread_email` returns a decision
with method `new_thread`, confidence 0.0, is-new true, carrying the
freshly minted thread id. -/
theorem c3_new_thread_fallback (ext : Ext) (now : Int) (fid : Str) (store : Store)
    (d : EmailData) (ue : Option Str)
    (h1 : checkParticipantTagThread ext store d ue = none)
    (h2 : checkConversationId store d = none)
    (h3 : checkCustomHeader store d = none)
    (h4 : checkInReplyTo store d = none)
    (h5 : checkReferences store d = none)
    (h6 : checkSubjectMatching ext now store d = none)
    (h7 : checkTimeRecipientMatching ext now store d = .ok none) :
    threadEmail ext now fid store d ue =
      .ok ⟨fid, 0, "new_thread".data, none, true⟩ := by
  unfold threadEmail matchLayers
  rw [h1, h2, h3, h4, h5, h6, h7]

/-- Witness for C3 at a concrete input. -/
theorem c3_new_thread_fallback_witness :
    threadEmail extSample 0 "n".data storeEmpty dEmpty none =
      .ok ⟨"n".data, 0, "new_thread".data, none, true⟩ :=
  c3_new_thread_fallback extSample 0 "n".data storeEmpty dEmpty none
    (by decide) (by decide) (by decide) (by decide) (by decide) (by decide) (by decide)

/-- C4 (counterexample): the subject normalizer is not idempotent — for
the input `" re: abc"` (leading space) one normalisation yields
`"re: abc"`, whose further normalisation strips the now-leading reply
token down to `"abc"`. -/
theorem c4_idempotence_counterexample :
    normalizeSubject (normalizeSubject " re: abc".data) ≠
      normalizeSubject " re: abc".data := by
  decide

/-- C5: in the subject fuzzy matcher, a first recent candidate whose
computed similarity is exactly 0.90 and which shares a participant
address produces the match (method `subject_matching`, confidence 0.70);
candidates all at similarity 0.89 produce no match; and the matcher
always declines when the normalized subject is shorter than five
characters. -/
theorem c5_subject_boundary (ext : Ext) (now : Int) (store : Store) (d : EmailData)
    (e : EmailRec) (rest : List EmailRec) :
    ((normalizeSubject d.subject).length < 5 →
       checkSubjectMatching ext now store d = none) ∧
    (d.subject ≠ [] → ¬ (normalizeSubject d.subject).length < 5 →
     recentSubjectEmails now store = e :: rest →
     ext.similarity (normalizeSubject d.subject) (normalizeSubject e.subject) = mkRat 9 10 →
     1 ≤ (currentRecipientSet d ∩ storedRecipientSet e).card →
       checkSubjectMatching ext now store d =
         some ⟨e.thread_id, mkRat 7 10, "subject_matching".data, some e.id, false⟩) ∧
    ((∀ x ∈ recentSubjectEmails now store,
        ext.similarity (normalizeSubject d.subject) (normalizeSubject x.subject) = mkRat 89 100) →
     checkSubjectMatching ext now store d = none) := by
  refine ⟨?_, ?_, ?_⟩
  · intro hlen
    unfold checkSubjectMatching
    by_cases hsub : d.subject = []
    · rw [if_pos hsub]
    · rw [if_neg hsub, if_pos hlen]
  · intro hsub hlen hrec hsim hover
    unfold checkSubjectMatching
    rw [if_neg hsub, if_neg hlen, hrec]
    unfold scanSubject
    rw [hsim, if_pos (le_refl (mkRat 9 10)), if_pos hover]
  · intro hall
    unfold checkSubjectMatching
    by_cases hsub : d.subject = []
    · rw [if_pos hsub]
    · rw [if_neg hsub]
      by_cases hlen : (normalizeSubject d.subject).length < 5
      · rw [if_pos hlen]
      · rw [if_neg hlen]
        exact scanSubject_none ext _ _ _ hall

/-- Witness for C5 at concrete inputs: the 0.90 boundary matches, the
0.89 boundary does not, and a short normalized subject declines. -/
theorem c5_subject_boundary_witness :
    checkSubjectMatching extNinety 999100 store5 d5 =
      some ⟨"T5".data, mkRat 7 10, "subject_matching".data, some "e5".data, false⟩ ∧
    checkSubjectMatching extEightyNine 999100 store5 d5 = none ∧
    checkSubjectMatching extSample 0 store5 d5short = none :=
  ⟨(c5_subject_boundary extNinety 999100 store5 d5 e5 []).2.1
      (by decide) (by decide) (by decide) (by decide) (by decide),
   (c5_subject_boundary extEightyNine 999100 store5 d5 e5 []).2.2 (by decide),
   (c5_subject_boundary extSample 0 store5 d5short e5 []).1 (by decide)⟩

/-- C6 (counterexample): a stored candidate received exactly 24 hours
before the new message's received time is not excluded — it passes the
inclusive `received >= t - 24h` filter and, with full participant
overlap, the time+recipient matcher returns it. -/
theorem c6_time_boundary_counterexample :
    d6t.receivedDateTime = some "2024-01-01T00:00:00+00:00".data ∧
    ext6.parseIso (pyReplaceZ "2024-01-01T00:00:00+00:00".data) = some 1000000 ∧
    store6.emails = [e6] ∧
    e6.received_date_time = some (1000000 - 86400) ∧
    checkTimeRecipientMatching ext6 555 store6 d6t =
      .ok (some ⟨"T6".data, mkRat 5 10, "time_recipient_matching".data,
                 some "e6".data, false⟩) := by
  decide

/-- C6 (amended): for a new message whose timestamp parses to `t`, a
stored candidate received strictly before `t − 24h` is excluded from the
time+recipient matcher, while a candidate received anywhere in the
inclusive window `[t − 24h, t]` — in particular exactly at `t − 24h`, or
at `t − 23h59m59s` — is eligible and matches when the participant-set
Jaccard overlap reaches 0.70. -/
theorem c6_time_boundary_amended (ext : Ext) (store : Store) (d : EmailData)
    (now t : Int) (s : Str) (e : EmailRec)
    (hs : d.receivedDateTime = some s) (hne : s ≠ [])
    (hp : ext.parseIso (pyReplaceZ s) = some t)
    (hcard : ¬ (currentRecipientSet d).card < 2) :
    ((∀ x ∈ store.emails, ∀ rx, x.received_date_time = some rx → rx < t - 86400) →
       checkTimeRecipientMatching ext now store d = .ok none) ∧
    (∀ r0 : Int, t - 86400 ≤ r0 → r0 ≤ t →
     store.emails = [e] → e.received_date_time = some r0 →
     mkRat 7 10 ≤ mkRat ((currentRecipientSet d ∩ storedRecipientSet e).card)
                        ((currentRecipientSet d ∪ storedRecipientSet e).card) →
       checkTimeRecipientMatching ext now store d =
         .ok (some ⟨e.thread_id, mkRat 5 10, "time_recipient_matching".data,
                    some e.id, false⟩)) := by
  have hbase : checkTimeRecipientMatching ext now store d =
      .ok (scanTimeRecipients (currentRecipientSet d)
            (timeWindowEmails store (t - 86400) t)) := by
    simp only [checkTimeRecipientMatching, if_neg hcard, hs, if_neg hne, hp]
  constructor
  · intro hall
    rw [hbase]
    have hwin : timeWindowEmails store (t - 86400) t = [] := by
      unfold timeWindowEmails
      rw [List.filter_eq_nil_iff.mpr, List.take_nil]
      intro x hx
      cases hrx : x.received_date_time with
      | none => simp [hrx]
      | some rx =>
        have := hall x hx rx hrx
        simp [hrx]
        omega
    rw [hwin]
    rfl
  · intro r0 hlo hhi hst hrd hover
    rw [hbase]
    have hwin : timeWindowEmails store (t - 86400) t = [e] := by
      unfold timeWindowEmails
      rw [hst]
      simp [List.filter, hrd, hhi, show t ≤ r0 + 86400 by omega]
    rw [hwin]
    have hexne : storedRecipientSet e ≠ ∅ :=
      Finset.ne_empty_of_mem (storedRecipientSet_mem_from e)
    have huni : 0 < (currentRecipientSet d ∪ storedRecipientSet e).card :=
      Finset.card_pos.mpr
        ⟨e.from_address, Finset.mem_union_right _ (storedRecipientSet_mem_from e)⟩
    simp only [scanTimeRecipients, if_neg hexne, if_pos huni, if_pos hover]

/-- Witness for C6 (amended) at concrete inputs: an empty store yields no
match, and the single candidate at exactly `t − 24h` matches. -/
theorem c6_time_boundary_amended_witness :
    checkTimeRecipientMatching ext6 555 storeEmpty d6t = .ok none ∧
    checkTimeRecipientMatching ext6 555 store6 d6t =
      .ok (some ⟨"T6".data, mkRat 5 10, "time_recipient_matching".data,
                 some "e6".data, false⟩) :=
  ⟨(c6_time_boundary_amended ext6 storeEmpty d6t 555 1000000
      "2024-01-01T00:00:00+00:00".data e6 (by decide) (by decide) (by decide)
      (by decide)).1 (by intro x hx; cases hx),
   (c6_time_boundary_amended ext6 store6 d6t 555 1000000
      "2024-01-01T00:00:00+00:00".data e6 (by decide) (by decide) (by decide)
      (by decide)).2 (1000000 - 86400) (by decide) (by decide) (by decide)
      (by decide) (by decide)⟩

/-- C7 (counterexample): `last_activity_at` can decrease while set even
past the first message — the send path sets it to the current clock
unconditionally, so a thread with one message and activity at time 100
drops to 50 when a message is sent at clock 50. -/
theorem c7_last_activity_counterexample :
    th7.last_activity_at = some 100 ∧ th7.message_count = some 1 ∧
    (sendThreadUpdate th7 "e2".data 50).last_activity_at = some 50 ∧
    (50 : Int) < 100 := by
  decide

/-- C7 (amended): under the sync-path update, the first message (activity
unset or count zero) sets `last_activity_at` to its own timestamp
unconditionally, and later messages only ever raise it (to the maximum of
the old value and the message timestamp); the send-path update instead
sets it to the current clock unconditionally, which can decrease it. -/
theorem c7_last_activity_amended (th : ThreadRec) (emailId : Str) (ts : Int)
    (fromAddr userEmail : Str) :
    ((th.last_activity_at = none ∨ th.message_count = some 0) →
      (syncThreadUpdate th emailId ts fromAddr userEmail).last_activity_at = some ts) ∧
    (∀ cur, th.last_activity_at = some cur → th.message_count ≠ some 0 →
      (syncThreadUpdate th emailId ts fromAddr userEmail).last_activity_at =
        some (max cur ts)) ∧
    (∀ now, (sendThreadUpdate th emailId now).last_activity_at = some now) := by
  refine ⟨?_, ?_, fun now => sendThreadUpdate_last_activity th emailId now⟩
  · intro h
    rw [syncThreadUpdate_last_activity, if_pos h]
  · intro cur hla hmc
    rw [syncThreadUpdate_last_activity, if_neg, hla]
    · rcases lt_or_le cur ts with hlt | hle
      · simp [hlt, max_eq_right hlt.le]
      · simp [not_lt.mpr hle, max_eq_left hle]
    · rw [hla]
      rintro (h | h)
      · exact Option.noConfusion h
      · exact hmc h

/-- Witness for C7 (amended) at concrete inputs. -/
theorem c7_last_activity_amended_witness :
    (syncThreadUpdate thFresh "e1".data 42 "c@x".data "u@x".data).last_activity_at =
      some 42 ∧
    (syncThreadUpdate th7 "e9".data 150 "c@x".data "u@x".data).last_activity_at =
      some (max 100 150) ∧
    (sendThreadUpdate th7 "e9".data 777).last_activity_at = some 777 :=
  ⟨(c7_last_activity_amended thFresh "e1".data 42 "c@x".data "u@x".data).1
      (Or.inl (by decide)),
   (c7_last_activity_amended th7 "e9".data 150 "c@x".data "u@x".data).2.1 100
      (by decide) (by decide),
   (c7_last_activity_amended th7 "e9".data 777 "c@x".data "u@x".data).2.2 777⟩

/-- C8 (counterexample): the direct custom-header lookup is not
case-insensitive — a header named `X-TAX-EMAIL-ID` (an upper-case variant
of the tracking header) whose value is the tracking id of a stored thread
is not found, and the whole custom-header matcher returns nothing. -/
theorem c8_header_case_counterexample :
    lowerStr "X-TAX-EMAIL-ID".data = lowerStr "X-Tax-Email-ID".data ∧
    d8.headers = [⟨"X-TAX-EMAIL-ID".data, "TAX_abc".data⟩] ∧
    (store8.threads.find? (fun t => decide (t.tax_email_id = some "TAX_abc".data))).isSome ∧
    checkCustomHeader store8 d8 = none := by
  decide

/-- C8 (amended): the direct custom-header lookup fires only for the
exact, case-sensitive header name `X-Tax-Email-ID`; a leading header of
that exact name whose non-empty value is the tracking id of a stored
thread yields that thread with confidence 0.95. -/
theorem c8_header_case_amended (store : Store) (d : EmailData) (v : Str)
    (hs : List HeaderRec) (th : ThreadRec)
    (hh : d.headers = ⟨"X-Tax-Email-ID".data, v⟩ :: hs)
    (hv : v ≠ [])
    (hf : store.threads.find? (fun t => decide (t.tax_email_id = some v)) = some th) :
    checkCustomHeader store d =
      some ⟨th.id, mkRat 95 100, "custom_header_direct".data, none, false⟩ := by
  unfold checkCustomHeader
  rw [hh]
  simp only [findDirectTax, hf]
  simp [hv]

/-- Witness for C8 (amended) at a concrete input. -/
theorem c8_header_case_amended_witness :
    checkCustomHeader store8 d8b =
      some ⟨t8.id, mkRat 95 100, "custom_header_direct".data, none, false⟩ :=
  c8_header_case_amended store8 d8b "TAX_abc".data [] t8
    (by decide) (by decide) (by decide)

/-- C9 (counterexample): an unparseable non-empty timestamp string does
not degrade gracefully — when the time+recipient matcher is reached with
at least two participants, `datetime.fromisoformat` raises and the error
propagates out of `thread_email`. -/
theorem c9_error_counterexample :
    d9.receivedDateTime = some "garbage".data ∧
    extSample.parseIso (pyReplaceZ "garbage".data) = none ∧
    threadEmail extSample 0 "f".data storeEmpty d9 none = .error "ValueError".data := by
  decide

/-- C9 (amended): a missing timestamp — the key absent or holding the
empty string — degrades gracefully: resolution completes normally (an
`ok` decision is returned), and the time+recipient matcher substitutes
the current time, scanning the window `[now − 24h, now]`. -/
theorem c9_missing_timestamp_amended (ext : Ext) (now : Int) (fid : Str)
    (store : Store) (d : EmailData) (ue : Option Str)
    (h : d.receivedDateTime = none ∨ d.receivedDateTime = some []) :
    (∃ r, threadEmail ext now fid store d ue = .ok r) ∧
    (¬ (currentRecipientSet d).card < 2 →
      checkTimeRecipientMatching ext now store d =
        .ok (scanTimeRecipients (currentRecipientSet d)
              (timeWindowEmails store (now - 86400) now))) := by
  have hsub : ¬ (currentRecipientSet d).card < 2 →
      checkTimeRecipientMatching ext now store d =
        .ok (scanTimeRecipients (currentRecipientSet d)
              (timeWindowEmails store (now - 86400) now)) := by
    intro hc
    unfold checkTimeRecipientMatching
    rcases h with h | h
    · rw [h, if_neg hc]
    · rw [h, if_neg hc]
      rfl
  have hok : ∃ o, checkTimeRecipientMatching ext now store d = .ok o := by
    by_cases hc : (currentRecipientSet d).card < 2
    · refine ⟨none, ?_⟩
      unfold checkTimeRecipientMatching
      rw [if_pos hc]
    · exact ⟨_, hsub hc⟩
  refine ⟨?_, hsub⟩
  · unfold threadEmail matchLayers
    cases h1 : checkParticipantTagThread ext store d ue with
    | some r => exact ⟨r, rfl⟩
    | none =>
    cases h2 : checkConversationId store d with
    | some r => exact ⟨r, rfl⟩
    | none =>
    cases h3 : checkCustomHeader store d with
    | some r => exact ⟨r, rfl⟩
    | none =>
    cases h4 : checkInReplyTo store d with
    | some r => exact ⟨r, rfl⟩
    | none =>
    cases h5 : checkReferences store d with
    | some r => exact ⟨r, rfl⟩
    | none =>
    cases h6 : checkSubjectMatching ext now store d with
    | some r => exact ⟨r, rfl⟩
    | none =>
      obtain ⟨o, ho⟩ := hok
      rw [ho]
      cases o with
      | some r => exact ⟨r, rfl⟩
      | none => exact ⟨_, rfl⟩

/-- Witness for C9 (amended) at concrete inputs, one with the timestamp
key absent and one with it holding the empty string. -/
theorem c9_missing_timestamp_amended_witness :
    ((∃ r, threadEmail extSample 5 "f".data storeEmpty d9b none = .ok r) ∧
     (¬ (currentRecipientSet d9b).card < 2 →
       checkTimeRecipientMatching extSample 5 storeEmpty d9b =
         .ok (scanTimeRecipients (currentRecipientSet d9b)
               (timeWindowEmails storeEmpty (5 - 86400) 5)))) ∧
    ((∃ r, threadEmail extSample 5 "g".data storeEmpty d9c none = .ok r) ∧
     (¬ (currentRecipientSet d9c).card < 2 →
       checkTimeRecipientMatching extSample 5 storeEmpty d9c =
         .ok (scanTimeRecipients (currentRecipientSet d9c)
               (timeWindowEmails storeEmpty (5 - 86400) 5)))) :=
  ⟨c9_missing_timestamp_amended extSample 5 "f".data storeEmpty d9b none
     (Or.inl (by decide)),
   c9_missing_timestamp_amended extSample 5 "g".data storeEmpty d9c none
     (Or.inr (by decide))⟩

/-- C10: every decision returned by `thread_email` has is-new true
exactly when its method is `new_thread`, and its confidence is the fixed
constant attached to its method tag. -/
theorem c10_decision_invariants (ext : Ext) (now : Int) (fid : Str) (store : Store)
    (d : EmailData) (ue : Option Str) (r : ThreadingResult)
    (h : threadEmail ext now fid store d ue = .ok r) :
    ((r.is_new = true) ↔ r.method = "new_thread".data) ∧
    r.confidence = methodConfidence r.method := by
  unfold threadEmail at h
  cases hml : matchLayers ext now store d ue with
  | error e => rw [hml] at h; exact Except.noConfusion h
  | ok o =>
    rw [hml] at h
    cases o with
    | some r2 =>
      injection h with h; subst h
      obtain ⟨hc, hn, hm⟩ := matchLayers_shape ext now store d ue r2 hml
      refine ⟨⟨fun ht => ?_, fun hme => absurd hme hm⟩, hc⟩
      rw [hn] at ht
      exact absurd ht (by simp)
    | none =>
      injection h with h; subst h
      exact ⟨by simp, show (0 : ℚ) = methodConfidence "new_thread".data by decide⟩

/-- Witness for C10 at a concrete input. -/
theorem c10_decision_invariants_witness :
    (((⟨"a".data, 0, "new_thread".data, none, true⟩ : ThreadingResult).is_new = true) ↔
      (⟨"a".data, 0, "new_thread".data, none, true⟩ : ThreadingResult).method =
        "new_thread".data) ∧
    (⟨"a".data, 0, "new_thread".data, none, true⟩ : ThreadingResult).confidence =
      methodConfidence
        (⟨"a".data, 0, "new_thread".data, none, true⟩ : ThreadingResult).method :=
  c10_decision_invariants extSample 0 "a".data storeEmpty dEmpty none
    ⟨"a".data, 0, "new_thread".data, none, true⟩ (by decide)

theorem pyLower_isPySpace (c : Char) : isPySpace (pyLower c) = isPySpace c := by
  unfold pyLower
  cases h : caseTable.find? (fun p => decide (p.1 = c)) with
  | none => rfl
  | some p =>
    have hm := List.mem_of_find?_eq_some h
    have hc : p.1 = c := by simpa using List.find?_some h
    subst hc
    exact (show ∀ q ∈ caseTable, isPySpace q.2 = isPySpace q.1 by decide) p hm

theorem pyLower_idem (c : Char) : pyLower (pyLower c) = pyLower c := by
  unfold pyLower
  cases h : caseTable.find? (fun p => decide (p.1 = c)) with
  | none => rw [h]
  | some p =>
    have hm := List.mem_of_find?_eq_some h
    have hnone : caseTable.find? (fun q => decide (q.1 = p.2)) = none := by
      rw [List.find?_eq_none]
      intro q hq
      simp only [decide_eq_true_eq]
      exact (show ∀ x ∈ caseTable, ∀ q ∈ caseTable, q.1 ≠ x.2 by decide) p hm q hq
    rw [hnone]

theorem pyLower_space (c : Char) (h : pyLower c = ' ') : c = ' ' := by
  unfold pyLower at h
  cases hf : caseTable.find? (fun p => decide (p.1 = c)) with
  | none => rw [hf] at h; exact h
  | some p =>
    rw [hf] at h
    have hm := List.mem_of_find?_eq_some hf
    exact absurd h ((show ∀ q ∈ caseTable, q.2 ≠ ' ' by decide) p hm)

theorem pyLower_lsq (c : Char) (h : pyLower c = '[') : c = '[' := by
  unfold pyLower at h
  cases hf : caseTable.find? (fun p => decide (p.1 = c)) with
  | none => rw [hf] at h; exact h
  | some p =>
    rw [hf] at h
    have hm := List.mem_of_find?_eq_some hf
    exact absurd h ((show ∀ q ∈ caseTable, q.2 ≠ '[' by decide) p hm)

theorem pyLower_rsq (c : Char) (h : pyLower c = ']') : c = ']' := by
  unfold pyLower at h
  cases hf : caseTable.find? (fun p => decide (p.1 = c)) with
  | none => rw [hf] at h; exact h
  | some p =>
    rw [hf] at h
    have hm := List.mem_of_find?_eq_some hf
    exact absurd h ((show ∀ q ∈ caseTable, q.2 ≠ ']' by decide) p hm)

theorem pyLower_nl (c : Char) (h : pyLower c = '\n') : c = '\n' := by
  unfold pyLower at h
  cases hf : caseTable.find? (fun p => decide (p.1 = c)) with
  | none => rw [hf] at h; exact h
  | some p =>
    rw [hf] at h
    have hm := List.mem_of_find?_eq_some hf
    exact absurd h ((show ∀ q ∈ caseTable, q.2 ≠ '\n' by decide) p hm)

theorem dropWhile_head_false {α} (p : α → Bool) (l : List α) (c : α) (cs : List α)
    (h : l.dropWhile p = c :: cs) : p c = false := by
  have hh := List.head?_dropWhile_not p l
  rw [h] at hh
  simpa using hh

theorem pySplitFuel_congr : ∀ n m (s : Str), s.length ≤ n → s.length ≤ m →
    pySplitFuel n s = pySplitFuel m s := by
  intro n
  induction n with
  | zero =>
    intro m s hn _
    have hs : s = [] := List.length_eq_zero.mp (Nat.le_zero.mp hn)
    subst hs
    cases m <;> rfl
  | succ n ih =>
    intro m s hn hm
    cases m with
    | zero =>
      have hs : s = [] := List.length_eq_zero.mp (Nat.le_zero.mp hm)
      subst hs
      rfl
    | succ m =>
      show pySplitFuel (n + 1) s = pySplitFuel (m + 1) s
      unfold pySplitFuel
      cases hd : s.dropWhile isPySpace with
      | nil => rfl
      | cons c cs =>
        have hlen1 : cs.length + 1 ≤ s.length := by
          have := (List.dropWhile_sublist (l := s) isPySpace).length_le
          rw [hd] at this
          simpa using this
        have hc : isPySpace c = false := dropWhile_head_false _ _ _ _ hd
        have hrec : ((c :: cs).dropWhile (fun x => !isPySpace x)).length ≤ cs.length := by
          rw [List.dropWhile_cons_of_pos (by simp [hc])]
          exact (List.dropWhile_sublist _).length_le
        simp only []
        rw [ih m ((c :: cs).dropWhile (fun x => !isPySpace x)) (by omega) (by omega)]

theorem pySplit_eq (s : Str) :
    pySplit s =
      match s.dropWhile isPySpace with
      | [] => []
      | c :: cs =>
        (c :: cs).takeWhile (fun x => !isPySpace x) ::
          pySplit ((c :: cs).dropWhile (fun x => !isPySpace x)) := by
  cases hs : s.length with
  | zero =>
    have hnil : s = [] := List.length_eq_zero.mp hs
    subst hnil
    rfl
  | succ n =>
    cases hd : s.dropWhile isPySpace with
    | nil =>
      show pySplitFuel s.length s = _
      rw [hs]
      show (match s.dropWhile isPySpace with
            | [] => ([] : List Str)
            | c :: cs =>
              (c :: cs).takeWhile (fun x => !isPySpace x) ::
                pySplitFuel n ((c :: cs).dropWhile (fun x => !isPySpace x))) = _
      rw [hd]
    | cons c cs =>
      have hlen1 : cs.length + 1 ≤ s.length := by
        have hsub := (List.dropWhile_sublist (l := s) isPySpace).length_le
        rw [hd] at hsub
        simpa using hsub
      have hc : isPySpace c = false := dropWhile_head_false _ _ _ _ hd
      have hrec : ((c :: cs).dropWhile (fun x => !isPySpace x)).length ≤ cs.length := by
        rw [List.dropWhile_cons_of_pos (by simp [hc])]
        exact (List.dropWhile_sublist _).length_le
      have h1 : pySplit s = (c :: cs).takeWhile (fun x => !isPySpace x) ::
          pySplitFuel n ((c :: cs).dropWhile (fun x => !isPySpace x)) := by
        show pySplitFuel s.length s = _
        rw [hs]
        show (match s.dropWhile isPySpace with
              | [] => ([] : List Str)
              | c :: cs =>
                (c :: cs).takeWhile (fun x => !isPySpace x) ::
                  pySplitFuel n ((c :: cs).dropWhile (fun x => !isPySpace x))) = _
        rw [hd]
      have h2 : pySplitFuel n ((c :: cs).dropWhile (fun x => !isPySpace x)) =
          pySplit ((c :: cs).dropWhile (fun x => !isPySpace x)) :=
        pySplitFuel_congr n _ _ (by omega) (le_refl _)
      exact h1.trans (by rw [h2])

theorem pySplit_cons_nonspace (c : Char) (t : Str) (hc : isPySpace c = false) :
    pySplit (c :: t) =
      (c :: t).takeWhile (fun x => !isPySpace x) ::
        pySplit ((c :: t).dropWhile (fun x => !isPySpace x)) := by
  rw [pySplit_eq]
  rw [List.dropWhile_cons_of_neg (by simp [hc])]

theorem pySplit_cons_space (j : Str) : pySplit (' ' :: j) = pySplit j := by
  rw [pySplit_eq, pySplit_eq]
  rw [List.dropWhile_cons_of_pos (by decide)]

theorem pySplit_words : ∀ n (s : Str), s.length ≤ n →
    ∀ w ∈ pySplit s, w ≠ [] ∧ (∀ c ∈ w, isPySpace c = false) ∧ (∀ c ∈ w, c ∈ s) := by
  intro n
  induction n with
  | zero =>
    intro s hn w hw
    have hnil : s = [] := List.length_eq_zero.mp (Nat.le_zero.mp hn)
    subst hnil
    exact absurd hw (List.not_mem_nil w)
  | succ n ih =>
    intro s hn w hw
    rw [pySplit_eq] at hw
    cases hd : s.dropWhile isPySpace with
    | nil => rw [hd] at hw; exact absurd hw (by simp)
    | cons c cs =>
      rw [hd] at hw
      have hc : isPySpace c = false := dropWhile_head_false _ _ _ _ hd
      have hsubs : (c :: cs) ⊆ s := by
        rw [← hd]; exact List.dropWhile_subset _
      have hlen1 : cs.length + 1 ≤ s.length := by
        have hsub := (List.dropWhile_sublist (l := s) isPySpace).length_le
        rw [hd] at hsub
        simpa using hsub
      rcases List.mem_cons.mp hw with hweq | hwtl
      · subst hweq
        refine ⟨?_, ?_, ?_⟩
        · rw [List.takeWhile_cons_of_pos (by simp [hc])]
          exact List.cons_ne_nil _ _
        · intro x hx
          have := List.mem_takeWhile_imp hx
          simpa using this
        · intro x hx
          exact hsubs ((List.takeWhile_subset _) hx)
      · have hrec : ((c :: cs).dropWhile (fun x => !isPySpace x)).length ≤ cs.length := by
          rw [List.dropWhile_cons_of_pos (by simp [hc])]
          exact (List.dropWhile_sublist _).length_le
        obtain ⟨hne, hsp, hmem⟩ := ih _ (by omega) w hwtl
        refine ⟨hne, hsp, fun x hx => hsubs ((List.dropWhile_subset _) (hmem x hx))⟩

theorem pySplit_joinSpace :
    ∀ ws : List Str, (∀ w ∈ ws, w ≠ [] ∧ ∀ c ∈ w, isPySpace c = false) →
      pySplit (joinSpace ws) = ws := by
  intro ws
  induction ws with
  | nil => intro _; rfl
  | cons w ws ih =>
    intro h
    obtain ⟨hw, hwc⟩ := h w (List.mem_cons_self w ws)
    cases w with
    | nil => exact absurd rfl hw
    | cons c w' =>
    have hc : isPySpace c = false := hwc c (List.mem_cons_self c w')
    have hall : ∀ x ∈ c :: w', (!isPySpace x) = true := by
      intro x hx; simp [hwc x hx]
    cases ws with
    | nil =>
      show pySplit (c :: w') = [c :: w']
      rw [pySplit_cons_nonspace c w' hc]
      rw [List.takeWhile_eq_self_iff.mpr hall]
      rw [List.dropWhile_eq_nil_iff.mpr (by intro x hx; exact hall x hx)]
      rfl
    | cons w2 ws2 =>
      show pySplit ((c :: w') ++ ' ' :: joinSpace (w2 :: ws2)) = (c :: w') :: w2 :: ws2
      rw [List.cons_append]
      rw [pySplit_cons_nonspace c (w' ++ ' ' :: joinSpace (w2 :: ws2)) hc]
      rw [← List.cons_append]
      rw [List.takeWhile_append_of_pos hall, List.dropWhile_append_of_pos hall]
      rw [List.takeWhile_cons_of_neg (by decide), List.dropWhile_cons_of_neg (by decide)]
      rw [List.append_nil]
      rw [pySplit_cons_space]
      rw [ih (fun x hx => h x (List.mem_cons_of_mem _ hx))]

theorem isPySpace_pyLower_comp :
    (fun c => isPySpace (pyLower c)) = isPySpace :=
  funext fun c => pyLower_isPySpace c

theorem lowerStr_dropWhile (s : Str) :
    (lowerStr s).dropWhile isPySpace = lowerStr (s.dropWhile isPySpace) := by
  unfold lowerStr
  rw [List.dropWhile_map]
  rw [show (isPySpace ∘ pyLower) = isPySpace from isPySpace_pyLower_comp]

theorem lowerStr_takeWhileNot (s : Str) :
    (lowerStr s).takeWhile (fun x => !isPySpace x) =
      lowerStr (s.takeWhile (fun x => !isPySpace x)) := by
  unfold lowerStr
  rw [List.takeWhile_map]
  rw [show ((fun x => !isPySpace x) ∘ pyLower) = (fun x => !isPySpace x) from
    funext fun c => by simp [pyLower_isPySpace c]]

theorem lowerStr_dropWhileNot (s : Str) :
    (lowerStr s).dropWhile (fun x => !isPySpace x) =
      lowerStr (s.dropWhile (fun x => !isPySpace x)) := by
  unfold lowerStr
  rw [List.dropWhile_map]
  rw [show ((fun x => !isPySpace x) ∘ pyLower) = (fun x => !isPySpace x) from
    funext fun c => by simp [pyLower_isPySpace c]]

theorem pySplit_lowerStr : ∀ n (s : Str), s.length ≤ n →
    pySplit (lowerStr s) = (pySplit s).map lowerStr := by
  intro n
  induction n with
  | zero =>
    intro s hn
    have hnil : s = [] := List.length_eq_zero.mp (Nat.le_zero.mp hn)
    subst hnil
    rfl
  | succ n ih =>
    intro s hn
    rw [pySplit_eq, pySplit_eq, lowerStr_dropWhile]
    cases hd : s.dropWhile isPySpace with
    | nil => rfl
    | cons c cs =>
      have hc : isPySpace c = false := dropWhile_head_false _ _ _ _ hd
      have hlen1 : cs.length + 1 ≤ s.length := by
        have hsub := (List.dropWhile_sublist (l := s) isPySpace).length_le
        rw [hd] at hsub
        simpa using hsub
      have hrec : ((c :: cs).dropWhile (fun x => !isPySpace x)).length ≤ cs.length := by
        rw [List.dropWhile_cons_of_pos (by simp [hc])]
        exact (List.dropWhile_sublist _).length_le
      show (match lowerStr (c :: cs) with
            | [] => ([] : List Str)
            | c :: cs =>
              (c :: cs).takeWhile (fun x => !isPySpace x) ::
                pySplit ((c :: cs).dropWhile (fun x => !isPySpace x))) = _
      have hlc : lowerStr (c :: cs) = pyLower c :: lowerStr cs := rfl
      rw [hlc]
      show (pyLower c :: lowerStr cs).takeWhile (fun x => !isPySpace x) ::
          pySplit ((pyLower c :: lowerStr cs).dropWhile (fun x => !isPySpace x)) = _
      rw [show (pyLower c :: lowerStr cs : Str) = lowerStr (c :: cs) from rfl]
      rw [lowerStr_takeWhileNot, lowerStr_dropWhileNot]
      rw [ih ((c :: cs).dropWhile (fun x => !isPySpace x)) (by omega)]
      rfl

theorem mem_joinSpace (c : Char) :
    ∀ ws : List Str, c ∈ joinSpace ws → c = ' ' ∨ ∃ w ∈ ws, c ∈ w := by
  intro ws
  induction ws with
  | nil => intro h; exact absurd h (List.not_mem_nil c)
  | cons w ws ih =>
    intro h
    cases ws with
    | nil =>
      right
      exact ⟨w, List.mem_cons_self w [], h⟩
    | cons w2 ws2 =>
      rcases List.mem_append.mp h with hw | htail
      · exact Or.inr ⟨w, List.mem_cons_self _ _, hw⟩
      · rcases List.mem_cons.mp htail with hsp | hj
        · exact Or.inl hsp
        · rcases ih hj with hsp | ⟨w', hw', hc⟩
          · exact Or.inl hsp
          · exact Or.inr ⟨w', List.mem_cons_of_mem _ hw', hc⟩

theorem lowerStr_joinSpace :
    ∀ ws : List Str, joinSpace (ws.map lowerStr) = lowerStr (joinSpace ws) := by
  intro ws
  induction ws with
  | nil => rfl
  | cons w ws ih =>
    cases ws with
    | nil => rfl
    | cons w2 ws2 =>
      show lowerStr w ++ ' ' :: joinSpace ((w2 :: ws2).map lowerStr) = _
      rw [ih]
      show lowerStr w ++ ' ' :: lowerStr (joinSpace (w2 :: ws2)) =
        lowerStr (w ++ ' ' :: joinSpace (w2 :: ws2))
      unfold lowerStr
      rw [List.map_append, List.map_cons]
      rfl

theorem mem_of_getLast?_eq {α} (c : α) :
    ∀ l : List α, l.getLast? = some c → c ∈ l := by
  intro l
  induction l with
  | nil => intro h; simp at h
  | cons a tl ih =>
    intro h
    cases tl with
    | nil =>
      simp at h
      subst h
      exact List.mem_cons_self a []
    | cons b tl2 =>
      rw [List.getLast?_cons_cons] at h
      exact List.mem_cons_of_mem _ (ih h)

theorem joinSpace_ne_nil (w : Str) (ws : List Str) (hw : w ≠ []) :
    joinSpace (w :: ws) ≠ [] := by
  cases ws with
  | nil => exact hw
  | cons w2 ws2 =>
    show w ++ ' ' :: joinSpace (w2 :: ws2) ≠ []
    simp

theorem joinSpace_head :
    ∀ ws : List Str, (∀ w ∈ ws, w ≠ [] ∧ ∀ c ∈ w, isPySpace c = false) →
      ∀ c, (joinSpace ws).head? = some c → isPySpace c = false := by
  intro ws
  induction ws with
  | nil => intro _ c h; exact Option.noConfusion h
  | cons w ws _ =>
    intro h c hc
    obtain ⟨hw, hwc⟩ := h w (List.mem_cons_self w ws)
    cases hwe : w with
    | nil => exact absurd hwe hw
    | cons a w' =>
      subst hwe
      cases ws with
      | nil =>
        have hac : a = c := by
          have h1 : ((a :: w') : Str).head? = some c := hc
          simpa using h1
        subst hac
        exact hwc a (List.mem_cons_self a w')
      | cons w2 ws2 =>
        have hac : a = c := by
          have h1 : ((a :: w') ++ ' ' :: joinSpace (w2 :: ws2)).head? = some c := hc
          simpa using h1
        subst hac
        exact hwc a (List.mem_cons_self a w')

theorem joinSpace_getLast :
    ∀ ws : List Str, (∀ w ∈ ws, w ≠ [] ∧ ∀ c ∈ w, isPySpace c = false) →
      ∀ c, (joinSpace ws).getLast? = some c → isPySpace c = false := by
  intro ws
  induction ws with
  | nil => intro _ c h; exact Option.noConfusion h
  | cons w ws ih =>
    intro h c hc
    obtain ⟨hw, hwc⟩ := h w (List.mem_cons_self w ws)
    cases ws with
    | nil => exact hwc c (mem_of_getLast?_eq c w hc)
    | cons w2 ws2 =>
      have hjne : joinSpace (w2 :: ws2) ≠ [] :=
        joinSpace_ne_nil w2 ws2 (h w2 (by simp)).1
      have hc2 : (joinSpace (w2 :: ws2)).getLast? = some c := by
        have h1 : (w ++ ' ' :: joinSpace (w2 :: ws2)).getLast? = some c := hc
        rw [List.getLast?_append] at h1
        cases hj : joinSpace (w2 :: ws2) with
        | nil => exact absurd hj hjne
        | cons b tl =>
          rw [hj] at h1
          rw [List.getLast?_cons_cons] at h1
          have hsome : (b :: tl).getLast?.isSome := by simp
          obtain ⟨x, hx⟩ := Option.isSome_iff_exists.mp hsome
          rw [hx] at h1
          simp only [Option.or_some] at h1
          rw [hx]
          exact h1
      exact ih (fun x hx => h x (List.mem_cons_of_mem _ hx)) c hc2

theorem dropWhile_eq_self_of_head {α} (p : α → Bool) (l : List α)
    (h : ∀ c, l.head? = some c → p c = false) : l.dropWhile p = l := by
  cases l with
  | nil => rfl
  | cons a tl =>
    rw [List.dropWhile_cons_of_neg (by simp [h a rfl])]

theorem pySplit_wordsGood (x : Str) :
    ∀ w ∈ pySplit x, w ≠ [] ∧ ∀ c ∈ w, isPySpace c = false := by
  intro w hw
  obtain ⟨h1, h2, _⟩ := pySplit_words x.length x (le_refl _) w hw
  exact ⟨h1, h2⟩

theorem pyStrip_collapse (x : Str) : pyStrip (collapse x) = collapse x := by
  unfold pyStrip stripChars collapse
  rw [dropWhile_eq_self_of_head _ _ (joinSpace_head (pySplit x) (pySplit_wordsGood x))]
  rw [dropWhile_eq_self_of_head]
  · exact List.reverse_reverse _
  · intro c hcr
    rw [List.head?_reverse] at hcr
    exact joinSpace_getLast (pySplit x) (pySplit_wordsGood x) c hcr

theorem collapse_idem (x : Str) : collapse (collapse x) = collapse x := by
  unfold collapse
  congr 1
  exact pySplit_joinSpace (pySplit x) (pySplit_wordsGood x)

theorem collapse_lowerStr (x : Str) : collapse (lowerStr x) = lowerStr (collapse x) := by
  unfold collapse
  rw [pySplit_lowerStr x.length x (le_refl _)]
  exact lowerStr_joinSpace (pySplit x)

theorem lowerStr_idem (s : Str) : lowerStr (lowerStr s) = lowerStr s := by
  unfold lowerStr
  rw [List.map_map]
  congr 1
  exact funext fun c => pyLower_idem c

theorem noLead_dropWhile (l : Str) : noLead (l.dropWhile isPySpace) := by
  intro c hc
  have hh := List.head?_dropWhile_not isPySpace l
  rw [hc] at hh
  exact hh

theorem findTok_length (s tok : Str) (h : findTok s = some tok) :
    tok.length + 1 ≤ s.length := by
  have hp := List.find?_some h
  have hq : (s.take (tok ++ [':']).length).map pyLower = tok ++ [':'] := by
    simpa [ciStartsWith] using hp
  have hlen := congrArg List.length hq
  simp [List.length_take] at hlen
  omega

theorem stripTokOnce_some (s tok : Str) (h : findTok s = some tok) :
    stripTokOnce s = (s.drop (tok.length + 1)).dropWhile isPySpace := by
  unfold stripTokOnce
  rw [h]

theorem stripTokOnce_none (s : Str) (h : findTok s = none) : stripTokOnce s = s := by
  unfold stripTokOnce
  rw [h]

theorem stripTokOnce_lt (s tok : Str) (h : findTok s = some tok) :
    (stripTokOnce s).length < s.length := by
  rw [stripTokOnce_some s tok h]
  have h1 := findTok_length s tok h
  have h2 : ((s.drop (tok.length + 1)).dropWhile isPySpace).length ≤
      (s.drop (tok.length + 1)).length :=
    (List.dropWhile_sublist _).length_le
  rw [List.length_drop] at h2
  omega

theorem stripTokOnce_le (s : Str) : (stripTokOnce s).length ≤ s.length := by
  cases h : findTok s with
  | none => rw [stripTokOnce_none s h]
  | some tok => exact le_of_lt (stripTokOnce_lt s tok h)

theorem stripTokOnce_suffix (s : Str) : stripTokOnce s <:+ s := by
  cases h : findTok s with
  | none => rw [stripTokOnce_none s h]
  | some tok =>
    rw [stripTokOnce_some s tok h]
    exact (List.dropWhile_suffix _).trans (List.drop_suffix _ _)

theorem stripTokOnce_noLead (s : Str) (hs : noLead s) : noLead (stripTokOnce s) := by
  cases h : findTok s with
  | none => rw [stripTokOnce_none s h]; exact hs
  | some tok =>
    rw [stripTokOnce_some s tok h]
    exact noLead_dropWhile _

theorem bracketStrip_lsq (rest : Str) :
    bracketStrip ('[' :: rest) =
      match rest.dropWhile (fun c => !(c = ']' || c = '\n')) with
      | ']' :: tail => tail.dropWhile isPySpace
      | _ => '[' :: rest := rfl

theorem bracketStrip_cons_ne (c : Char) (s : Str) (h : c ≠ '[') :
    bracketStrip (c :: s) = c :: s := by
  unfold bracketStrip
  split
  · next heq => injection heq with h1 _; exact absurd h1 h
  · rfl

theorem bracketStrip_nil : bracketStrip [] = [] := rfl

theorem bracketStrip_hit (rest tail : Str)
    (h : rest.dropWhile (fun c => !(c = ']' || c = '\n')) = ']' :: tail) :
    bracketStrip ('[' :: rest) = tail.dropWhile isPySpace := by
  rw [bracketStrip_lsq, h]
  rfl

theorem bracketStrip_miss_nil (rest : Str)
    (h : rest.dropWhile (fun c => !(c = ']' || c = '\n')) = []) :
    bracketStrip ('[' :: rest) = '[' :: rest := by
  rw [bracketStrip_lsq, h]

theorem bracketStrip_miss_cons (rest : Str) (c : Char) (tail : Str)
    (h : rest.dropWhile (fun x => !(x = ']' || x = '\n')) = c :: tail)
    (hc : c ≠ ']') :
    bracketStrip ('[' :: rest) = '[' :: rest := by
  rw [bracketStrip_lsq, h]
  split
  · next heq => injection heq with h1 _; exact absurd h1 hc
  · rfl

theorem bracketStrip_cases (s : Str) :
    bracketStrip s = s ∨
    ∃ rest tail, s = '[' :: rest ∧
      rest.dropWhile (fun x => !(x = ']' || x = '\n')) = ']' :: tail ∧
      bracketStrip s = tail.dropWhile isPySpace := by
  cases s with
  | nil => exact Or.inl bracketStrip_nil
  | cons c s' =>
    by_cases hc : c = '['
    · subst hc
      cases hd : s'.dropWhile (fun x => !(x = ']' || x = '\n')) with
      | nil => exact Or.inl (bracketStrip_miss_nil s' hd)
      | cons c2 tail =>
        by_cases hc2 : c2 = ']'
        · subst hc2
          exact Or.inr ⟨s', tail, rfl, hd, bracketStrip_hit s' tail hd⟩
        · exact Or.inl (bracketStrip_miss_cons s' c2 tail hd hc2)
    · exact Or.inl (bracketStrip_cons_ne c s' hc)

theorem bracketStrip_hit_lt (rest tail : Str)
    (h : rest.dropWhile (fun x => !(x = ']' || x = '\n')) = ']' :: tail) :
    (bracketStrip ('[' :: rest)).length < ('[' :: rest).length := by
  rw [bracketStrip_hit rest tail h]
  have h1 : (tail.dropWhile isPySpace).length ≤ tail.length :=
    (List.dropWhile_sublist _).length_le
  have h2 : (']' :: tail).length ≤ rest.length := by
    have := (List.dropWhile_sublist (l := rest) (fun x => !(x = ']' || x = '\n'))).length_le
    rw [h] at this
    exact this
  simp at h2 ⊢
  omega

theorem bracketStrip_le (s : Str) : (bracketStrip s).length ≤ s.length := by
  rcases bracketStrip_cases s with h | ⟨rest, tail, hs, hd, _⟩
  · rw [h]
  · subst hs
    exact le_of_lt (bracketStrip_hit_lt rest tail hd)

theorem bracketStrip_suffix (s : Str) : bracketStrip s <:+ s := by
  rcases bracketStrip_cases s with h | ⟨rest, tail, hs, hd, hb⟩
  · rw [h]
  · subst hs
    rw [hb]
    have h1 : tail.dropWhile isPySpace <:+ tail := List.dropWhile_suffix _
    have h2 : tail <:+ ']' :: tail := List.suffix_cons _ _
    have h3 : (']' : Char) :: tail <:+ rest := by
      rw [← hd]; exact List.dropWhile_suffix _
    have h4 : rest <:+ '[' :: rest := List.suffix_cons _ _
    exact ((h1.trans h2).trans h3).trans h4

theorem bracketStrip_noLead (s : Str) (hs : noLead s) : noLead (bracketStrip s) := by
  rcases bracketStrip_cases s with h | ⟨rest, tail, hseq, hd, hb⟩
  · rw [h]; exact hs
  · rw [hb]; exact noLead_dropWhile _

theorem bracketStrip_lt_of_ne (s : Str) (h : bracketStrip s ≠ s) :
    (bracketStrip s).length < s.length := by
  rcases bracketStrip_cases s with heq | ⟨rest, tail, hseq, hd, _⟩
  · exact absurd heq h
  · subst hseq
    exact bracketStrip_hit_lt rest tail hd

theorem stripStep_le (s : Str) : (stripStep s).length ≤ s.length :=
  le_trans (bracketStrip_le _) (stripTokOnce_le s)

theorem stripStep_suffix (s : Str) : stripStep s <:+ s :=
  (bracketStrip_suffix _).trans (stripTokOnce_suffix s)

theorem stripStep_noLead (s : Str) (hs : noLead s) : noLead (stripStep s) :=
  bracketStrip_noLead _ (stripTokOnce_noLead s hs)

theorem stripStep_lt_of_ne (s : Str) (h : stripStep s ≠ s) :
    (stripStep s).length < s.length := by
  cases hf : findTok s with
  | some tok =>
    exact lt_of_le_of_lt (bracketStrip_le _) (stripTokOnce_lt s tok hf)
  | none =>
    unfold stripStep at h ⊢
    rw [stripTokOnce_none s hf] at h ⊢
    exact bracketStrip_lt_of_ne s h

theorem stripStep_fix_parts (t : Str) (h : stripStep t = t) :
    findTok t = none ∧ stripTokOnce t = t ∧ bracketStrip t = t := by
  have hf : findTok t = none := by
    cases hf : findTok t with
    | none => rfl
    | some tok =>
      have h1 := stripTokOnce_lt t tok hf
      have h2 := bracketStrip_le (stripTokOnce t)
      have : (stripStep t).length < t.length := lt_of_le_of_lt h2 h1
      rw [h] at this
      exact absurd this (lt_irrefl _)
  have ht : stripTokOnce t = t := stripTokOnce_none t hf
  refine ⟨hf, ht, ?_⟩
  have : stripStep t = bracketStrip t := by unfold stripStep; rw [ht]
  rw [← this, h]

theorem stripLoopFuel_fix : ∀ n (s : Str), s.length ≤ n →
    stripStep (stripLoopFuel n s) = stripLoopFuel n s := by
  intro n
  induction n with
  | zero =>
    intro s hn
    have hnil : s = [] := List.length_eq_zero.mp (Nat.le_zero.mp hn)
    subst hnil
    rfl
  | succ n ih =>
    intro s hn
    show stripStep (if stripStep s = s then s else stripLoopFuel n (stripStep s)) =
      (if stripStep s = s then s else stripLoopFuel n (stripStep s))
    by_cases h : stripStep s = s
    · rw [if_pos h]
      exact h
    · rw [if_neg h]
      have hlt := stripStep_lt_of_ne s h
      exact ih (stripStep s) (by omega)

theorem stripLoopFuel_suffix : ∀ n (s : Str), stripLoopFuel n s <:+ s := by
  intro n
  induction n with
  | zero => intro s; exact List.suffix_refl s
  | succ n ih =>
    intro s
    show (if stripStep s = s then s else stripLoopFuel n (stripStep s)) <:+ s
    by_cases h : stripStep s = s
    · rw [if_pos h]
    · rw [if_neg h]
      exact (ih (stripStep s)).trans (stripStep_suffix s)

theorem stripLoopFuel_noLead : ∀ n (s : Str), noLead s → noLead (stripLoopFuel n s) := by
  intro n
  induction n with
  | zero => intro s hs; exact hs
  | succ n ih =>
    intro s hs
    show noLead (if stripStep s = s then s else stripLoopFuel n (stripStep s))
    by_cases h : stripStep s = s
    · rw [if_pos h]; exact hs
    · rw [if_neg h]
      exact ih (stripStep s) (stripStep_noLead s hs)

theorem stripAll_fix (s : Str) : stripStep (stripAll s) = stripAll s :=
  stripLoopFuel_fix s.length s (le_refl _)

theorem stripAll_suffix (s : Str) : stripAll s <:+ s :=
  stripLoopFuel_suffix s.length s

theorem stripAll_noLead (s : Str) (hs : noLead s) : noLead (stripAll s) :=
  stripLoopFuel_noLead s.length s hs

theorem stripAll_eq_self_of_fix (s : Str) (h : stripStep s = s) : stripAll s = s := by
  unfold stripAll
  cases hn : s.length with
  | zero => rfl
  | succ n =>
    show (if stripStep s = s then s else stripLoopFuel n (stripStep s)) = s
    rw [if_pos h]

theorem collapse_decomp (t : Str) (ht : noLead t) (hne : t ≠ []) :
    collapse t = t.takeWhile (fun x => !isPySpace x) ++
        (collapse t).drop (t.takeWhile (fun x => !isPySpace x)).length ∧
    ((collapse t).drop (t.takeWhile (fun x => !isPySpace x)).length = [] ∨
     ∃ j, (collapse t).drop (t.takeWhile (fun x => !isPySpace x)).length = ' ' :: j) ∧
    t.takeWhile (fun x => !isPySpace x) ≠ [] := by
  cases t with
  | nil => exact absurd rfl hne
  | cons c t' =>
    have hc : isPySpace c = false := ht c rfl
    have hw : (c :: t').takeWhile (fun x => !isPySpace x) =
        c :: t'.takeWhile (fun x => !isPySpace x) :=
      List.takeWhile_cons_of_pos (by simp [hc])
    have hjs : collapse (c :: t') =
        (c :: t').takeWhile (fun x => !isPySpace x) ++
          (match pySplit ((c :: t').dropWhile (fun x => !isPySpace x)) with
           | [] => []
           | w2 :: ws2 => ' ' :: joinSpace (w2 :: ws2)) := by
      unfold collapse
      rw [pySplit_cons_nonspace c t' hc]
      cases hps : pySplit ((c :: t').dropWhile (fun x => !isPySpace x)) with
      | nil => exact (List.append_nil _).symm
      | cons w2 ws2 => rfl
    have hdrop : (collapse (c :: t')).drop
        ((c :: t').takeWhile (fun x => !isPySpace x)).length =
        (match pySplit ((c :: t').dropWhile (fun x => !isPySpace x)) with
         | [] => ([] : Str)
         | w2 :: ws2 => ' ' :: joinSpace (w2 :: ws2)) := by
      rw [hjs]
      rw [List.drop_left]
    refine ⟨?_, ?_, ?_⟩
    · rw [hdrop]
      exact hjs
    · rw [hdrop]
      cases pySplit ((c :: t').dropWhile (fun x => !isPySpace x)) with
      | nil => exact Or.inl rfl
      | cons w2 ws2 => exact Or.inr ⟨joinSpace (w2 :: ws2), rfl⟩
    · rw [hw]
      exact List.cons_ne_nil _ _

theorem pyLower_sp : pyLower ' ' = ' ' := by decide

theorem ciStartsWith_transfer (pat t : Str)
    (hpat : ∀ c ∈ pat, isPySpace c = false)
    (ht : noLead t)
    (h : ciStartsWith pat (lowerStr (collapse t)) = true) :
    ciStartsWith pat t = true := by
  unfold ciStartsWith at h ⊢
  rw [decide_eq_true_eq] at h
  rw [decide_eq_true_eq]
  by_cases hne : t = []
  · subst hne
    have hcoll : lowerStr (collapse ([] : Str)) = [] := rfl
    rw [hcoll] at h
    simpa using h
  · obtain ⟨hdec, htail, hwne⟩ := collapse_decomp t ht hne
    by_cases hkw : pat.length ≤ (t.takeWhile (fun x => !isPySpace x)).length
    · have hpre : t.takeWhile (fun x => !isPySpace x) <+: t := List.takeWhile_prefix _
      have h1 : (lowerStr (collapse t)).take pat.length =
          lowerStr ((t.takeWhile (fun x => !isPySpace x)).take pat.length) := by
        rw [hdec]
        unfold lowerStr
        rw [List.map_append]
        rw [List.take_append_of_le_length (by simpa using hkw)]
        rw [List.map_take]
      have h2 : (t.takeWhile (fun x => !isPySpace x)).take pat.length =
          t.take pat.length := by
        obtain ⟨r, hr⟩ := hpre
        conv_rhs => rw [← hr]
        rw [List.take_append_of_le_length hkw]
      rw [h1, h2] at h
      have h3 : (lowerStr (t.take pat.length)).map pyLower =
          (t.take pat.length).map pyLower := by
        show lowerStr (lowerStr (t.take pat.length)) = lowerStr (t.take pat.length)
        exact lowerStr_idem _
      rw [h3] at h
      exact h
    · push_neg at hkw
      exfalso
      rcases htail with htnil | ⟨j, htj⟩
      · rw [htnil, List.append_nil] at hdec
        rw [hdec] at h
        have hlen := congrArg List.length h
        simp only [List.length_map, List.length_take, lowerStr] at hlen
        omega
      · rw [htj] at hdec
        rw [hdec] at h
        have hklen : (lowerStr (t.takeWhile (fun x => !isPySpace x))).length <
            pat.length := by
          simpa [lowerStr] using hkw
        have hsplit : (lowerStr ((t.takeWhile (fun x => !isPySpace x)) ++ ' ' :: j)).take
            pat.length =
            lowerStr (t.takeWhile (fun x => !isPySpace x)) ++
              (' ' :: lowerStr j).take
                (pat.length - (t.takeWhile (fun x => !isPySpace x)).length) := by
          unfold lowerStr
          rw [List.map_append]
          rw [List.take_append_eq_append_take]
          congr 2
          · exact List.take_of_length_le (by simpa using le_of_lt hkw)
          · simp [pyLower_sp]
        rw [hsplit] at h
        obtain ⟨m, hm⟩ : ∃ m, pat.length - (t.takeWhile (fun x => !isPySpace x)).length
            = m + 1 := ⟨_, (Nat.succ_pred_eq_of_pos (by omega)).symm⟩
        rw [hm] at h
        rw [List.take_succ_cons] at h
        rw [List.map_append] at h
        have hmem : (' ' : Char) ∈ pat := by
          rw [← h]
          refine List.mem_append_right _ ?_
          show pyLower ' ' ∈ _
          rw [show ((' ' :: (lowerStr j).take m).map pyLower : Str) =
            pyLower ' ' :: ((lowerStr j).take m).map pyLower from rfl]
          exact List.mem_cons_self _ _
        have := hpat ' ' hmem
        simp [isPySpace] at this

theorem tokenList_nonspace :
    ∀ tok ∈ tokenList, ∀ c ∈ tok ++ [':'], isPySpace c = false := by
  decide

theorem findTok_transfer (t : Str) (ht : noLead t) (hf : findTok t = none) :
    findTok (lowerStr (collapse t)) = none := by
  unfold findTok at hf ⊢
  rw [List.find?_eq_none] at hf ⊢
  intro tok htok hci
  have hci2 : ciStartsWith (tok ++ [':']) (lowerStr (collapse t)) = true := hci
  exact hf tok htok
    (ciStartsWith_transfer (tok ++ [':']) t (tokenList_nonspace tok htok) ht hci2)

theorem mem_collapse (c : Char) (t : Str) (hc : c ∈ collapse t) :
    c = ' ' ∨ c ∈ t := by
  rcases mem_joinSpace c (pySplit t) hc with hsp | ⟨w, hw, hcw⟩
  · exact Or.inl hsp
  · obtain ⟨_, _, hmem⟩ := pySplit_words t.length t (le_refl _) w hw
    exact Or.inr (hmem c hcw)

theorem mem_of_mem_lower_collapse (c : Char) (t : Str)
    (hc : c ∈ lowerStr (collapse t)) (hfix : pyLower c = c) 
    (hinv : ∀ x, pyLower x = c → x = c) :
    c = ' ' ∨ c ∈ t := by
  rcases List.mem_map.mp hc with ⟨x, hx, hxc⟩
  have hxi : x = c := hinv x hxc
  subst hxi
  exact mem_collapse x t hx

theorem head_eq_of_lower_collapse (t : Str) (ht : noLead t) (c0 : Char)
    (urest : Str) (hu : lowerStr (collapse t) = c0 :: urest) :
    ∃ c t2, t = c :: t2 ∧ pyLower c = c0 := by
  cases hte : t with
  | nil =>
    subst hte
    exact List.noConfusion hu
  | cons c t2 =>
    refine ⟨c, t2, rfl, ?_⟩
    subst hte
    have hc : isPySpace c = false := ht c rfl
    obtain ⟨hdec, _, _⟩ := collapse_decomp (c :: t2) ht (List.cons_ne_nil c t2)
    rw [List.takeWhile_cons_of_pos (by simp [hc])] at hdec
    rw [hdec] at hu
    rw [List.cons_append] at hu
    have : pyLower c :: lowerStr (t2.takeWhile (fun x => !isPySpace x) ++
        ((collapse (c :: t2)).drop
          (c :: t2.takeWhile (fun x => !isPySpace x)).length)) = c0 :: urest := hu
    injection this with h1 h2

theorem bracketStrip_transfer (t : Str) (ht : noLead t) (hnl : '\n' ∉ t)
    (hb : bracketStrip t = t) :
    bracketStrip (lowerStr (collapse t)) = lowerStr (collapse t) := by
  rcases bracketStrip_cases (lowerStr (collapse t)) with heq | ⟨urest, utail, huEq, hdru, _⟩
  · exact heq
  · exfalso
    obtain ⟨c, t2, hteq, hlc⟩ := head_eq_of_lower_collapse t ht '[' urest huEq
    have hcl : c = '[' := pyLower_lsq c hlc
    subst hcl
    have hrsq_u : (']' : Char) ∈ urest := by
      have hsfx : (']' :: utail : Str) <:+ urest := by
        rw [← hdru]
        exact List.dropWhile_suffix _
      exact hsfx.subset (List.mem_cons_self _ _)
    have hrsq_coll : (']' : Char) ∈ lowerStr (collapse t) := by
      rw [huEq]
      exact List.mem_cons_of_mem _ hrsq_u
    have hrsq_t : (']' : Char) ∈ t :=
      (mem_of_mem_lower_collapse ']' t hrsq_coll (by decide)
        (fun x hx => pyLower_rsq x hx)).resolve_left (by decide)
    have hrsq_t2 : (']' : Char) ∈ t2 := by
      rw [hteq] at hrsq_t
      rcases List.mem_cons.mp hrsq_t with hh | hh
      · exact absurd hh (by decide)
      · exact hh
    have hnl_t2 : ('\n' : Char) ∉ t2 := by
      intro hmem
      exact hnl (by rw [hteq]; exact List.mem_cons_of_mem _ hmem)
    have hdw_ne : t2.dropWhile (fun x => !(x = ']' || x = '\n')) ≠ [] := by
      intro hnil
      rw [List.dropWhile_eq_nil_iff] at hnil
      have := hnil ']' hrsq_t2
      simp at this
    cases hdw : t2.dropWhile (fun x => !(x = ']' || x = '\n')) with
    | nil => exact hdw_ne hdw
    | cons c1 tl1 =>
      have hc1f := dropWhile_head_false (fun x => !(x = ']' || x = '\n')) t2 c1 tl1 hdw
      have hc1 : c1 = ']' ∨ c1 = '\n' := by
        by_cases hr : c1 = ']'
        · exact Or.inl hr
        · exact Or.inr ((show ¬c1 = ']' → c1 = '\n' by simpa using hc1f) hr)
      have hc1m : c1 ∈ t2 := by
        have hsfx : (c1 :: tl1 : Str) <:+ t2 := by
          rw [← hdw]
          exact List.dropWhile_suffix _
        exact hsfx.subset (List.mem_cons_self _ _)
      rcases hc1 with hc1 | hc1
      · subst hc1
        have hlt := bracketStrip_hit_lt t2 tl1 hdw
        rw [hteq] at hb
        rw [hb] at hlt
        exact absurd hlt (lt_irrefl _)
      · subst hc1
        exact hnl_t2 hc1m

theorem pyStrip_lowerStr (y : Str) : pyStrip (lowerStr y) = lowerStr (pyStrip y) := by
  unfold pyStrip stripChars
  rw [lowerStr_dropWhile]
  rw [show (lowerStr (y.dropWhile isPySpace)).reverse =
      lowerStr ((y.dropWhile isPySpace).reverse) by unfold lowerStr; rw [List.map_reverse]]
  rw [lowerStr_dropWhile]
  unfold lowerStr
  rw [List.map_reverse]

theorem tame_parts (s : Str) (h : tame s = true) : noLead s ∧ '\n' ∉ s := by
  unfold tame at h
  rw [Bool.and_eq_true] at h
  obtain ⟨h1, h2⟩ := h
  constructor
  · intro c hc
    cases s with
    | nil => exact absurd hc (by simp)
    | cons a tl =>
      have hac : a = c := by simpa using hc
      subst hac
      simpa using h1
  · intro hmem
    have hcon : s.contains '\n' = true :=
      List.contains_iff_exists_mem_beq.mpr ⟨'\n', hmem, by simp⟩
    rw [hcon] at h2
    simp at h2

theorem normalize_second_fix (t : Str)
    (hfix : stripStep t = t) (hlead : noLead t) (hnl : '\n' ∉ t) :
    normalizeSubject (lowerStr (collapse t)) = lowerStr (collapse t) := by
  by_cases hue : lowerStr (collapse t) = []
  · rw [hue]
    rfl
  · unfold normalizeSubject
    rw [if_neg hue]
    obtain ⟨hfn, hto, hbr⟩ := stripStep_fix_parts t hfix
    have hfn_u : findTok (lowerStr (collapse t)) = none := findTok_transfer t hlead hfn
    have hbr_u : bracketStrip (lowerStr (collapse t)) = lowerStr (collapse t) :=
      bracketStrip_transfer t hlead hnl hbr
    have hstep_u : stripStep (lowerStr (collapse t)) = lowerStr (collapse t) := by
      unfold stripStep
      rw [stripTokOnce_none _ hfn_u, hbr_u]
    rw [stripAll_eq_self_of_fix _ hstep_u]
    rw [collapse_lowerStr (collapse t)]
    rw [collapse_idem t]
    rw [pyStrip_lowerStr (collapse t)]
    rw [pyStrip_collapse t]
    exact lowerStr_idem (collapse t)

/-- C4 (amended): the subject normalizer maps empty input to empty output,
and it is idempotent on every subject that does not begin with whitespace
and contains no newline; with leading whitespace (or a newline inside a
leading bracket tag) the first normalisation can expose a strippable
prefix that only a second normalisation removes. -/
theorem c4_normalize_idempotent_amended :
    (∀ s : Str, tame s = true →
      normalizeSubject (normalizeSubject s) = normalizeSubject s) ∧
    normalizeSubject [] = [] := by
  refine ⟨?_, rfl⟩
  intro s hs
  obtain ⟨hlead, hnl⟩ := tame_parts s hs
  by_cases hse : s = []
  · subst hse; rfl
  · have hnorm : normalizeSubject s = lowerStr (collapse (stripAll s)) := by
      unfold normalizeSubject
      rw [if_neg hse]
      rw [pyStrip_collapse (stripAll s)]
    have hfix : stripStep (stripAll s) = stripAll s := stripAll_fix s
    have htl : noLead (stripAll s) := stripAll_noLead s hlead
    have htn : '\n' ∉ stripAll s := fun hm => hnl ((stripAll_suffix s).subset hm)
    rw [hnorm]
    exact normalize_second_fix (stripAll s) hfix htl htn

/-- Witness for C4 (amended) at a concrete input. -/
theorem c4_normalize_idempotent_amended_witness :
    tame "Re: [EXT] Quarterly Tax  Filing".data = true ∧
    normalizeSubject (normalizeSubject "Re: [EXT] Quarterly Tax  Filing".data) =
      normalizeSubject "Re: [EXT] Quarterly Tax  Filing".data ∧
    normalizeSubject [] = [] :=
  ⟨by decide,
   c4_normalize_idempotent_amended.1 "Re: [EXT] Quarterly Tax  Filing".data (by decide),
   c4_normalize_idempotent_amended.2⟩

end EmailModule
